import Mathlib

/-!
Shallow embedding of the core numeric routines of the ercpy repository
(`ercpy/holography.py`, `ercpy/utils.py`, `ercpy/mtools.py`), together with
theorems settling the specification claims about them.

Modelling conventions:
* 2D numpy arrays are `List (List α)` in row-major order; `shape` is
  `(rows, cols)` read off the list structure.
* Python/IEEE floats are modelled by `ℝ`, complex arrays by `ℂ`.
* Python 2 integer division (`//`-style flooring of `/` on ints) is `Int.fdiv`.
* Python slice semantics (index clipping, negative-index wraparound) are
  modelled exactly by `pyBound`/`pySlice`; slices never raise.
* Fallible numpy operations (elementwise arithmetic on mismatched shapes,
  boolean-mask indexing with a wrong-shaped mask, `argmax` of an empty array,
  `medfilt` with an even kernel, explicit `raise ValueError`) return
  `Except Err`.  General numpy broadcasting is not modelled: the elementwise
  operations require equal shapes, which coincides with numpy's behaviour on
  every input considered here (no dimension of size 1 is ever broadcast).
* Interactive matplotlib collaborators (RoiRect rectangle picking, RoiPoint
  fiducial picking) are modelled as explicit inputs; plotting and printing are
  side effects with no bearing on returned values and are dropped.
-/

open scoped Classical

noncomputable section

namespace Ercpy

/-- Python 2 integer division on `ℤ`: floors toward negative infinity. -/
def pydiv (a b : ℤ) : ℤ := Int.fdiv a b

/-- numpy `np.mod x y` on reals (the result has the sign of `y`; for `y > 0`
it lies in `[0, y)`): `x - y * ⌊x / y⌋`. -/
def pymod (x y : ℝ) : ℝ := x - y * ⌊x / y⌋

/-- Python `int()` applied to a float: truncation toward zero. -/
def pyint (x : ℝ) : ℤ := if x < 0 then ⌈x⌉ else ⌊x⌋

/-- A 2D array in row-major order. -/
abbrev Mat (α : Type) := List (List α)

/-- numpy `a.shape` for a 2D array: `(rows, cols)`, cols read from the first
row (`(0, 0)` for an empty array). -/
def shape (a : Mat α) : ℕ × ℕ := (a.length, (a.headD []).length)

/-- Number of columns of a 2D array (from its first row). -/
def ncols (a : Mat α) : ℕ := (a.headD []).length

/-- The array is rectangular: every row has the common length. -/
def rect2d (a : Mat α) : Prop := ∀ r ∈ a, r.length = ncols a

/-- Entry access with a default, `a[i][j]`. -/
def entry2d (a : Mat α) (i j : ℕ) (d : α) : α := (a.getD i []).getD j d

/-- Optional entry access, `a[i][j]` as an `Option`. -/
def entry2q (a : Mat α) (i j : ℕ) : Option α := a.get? i |>.bind (·.get? j)

/-- Elementwise map over a 2D array. -/
def map2d (f : α → β) (a : Mat α) : Mat β := a.map (·.map f)

/-- Elementwise combination of two 2D arrays (defined on the overlap). -/
def zip2d (f : α → β → γ) (a : Mat α) (b : Mat β) : Mat γ :=
  List.zipWith (List.zipWith f) a b

/-- Promote a real array to a complex one (numpy upcasting in `real * complex`). -/
def toC (a : Mat ℝ) : Mat ℂ := map2d Complex.ofReal a

/-- numpy `np.zeros((m, n))`. -/
def zeros (m n : ℕ) : Mat ℝ := List.replicate m (List.replicate n 0)

/-- Integer `np.arange(a, b, 1)` (values `a, a+1, …, b-1`). -/
def arangeI (a b : ℤ) : List ℤ := (List.range (b - a).toNat).map (fun i : ℕ => a + i)

/-- numpy `np.linspace a b n` with the default inclusive endpoint. -/
def linspace (a b : ℝ) (n : ℕ) : List ℝ :=
  (List.range n).map (fun i : ℕ => a + (b - a) * (i : ℝ) / ((n - 1 : ℕ) : ℝ))

/-- Normalisation of a Python slice endpoint against a list of length `n`:
negative indices count from the end, and everything is clipped into `[0, n]`.
Python slices never raise. -/
def pyBound (n : ℕ) (i : ℤ) : ℕ := if i < 0 then ((n : ℤ) + i).toNat else min i.toNat n

/-- Length of the Python slice `xs[lo:hi]` on a list of length `n`. -/
def pyLen (n : ℕ) (lo hi : ℤ) : ℕ := pyBound n hi - pyBound n lo

/-- Python slice `xs[lo:hi]` (step 1): clip both endpoints, then take the
range in between (empty when the clipped endpoints cross). -/
def pySlice (xs : List α) (lo hi : ℤ) : List α :=
  (xs.drop (pyBound xs.length lo)).take (pyBound xs.length hi - pyBound xs.length lo)

/-- 2D Python slice `a[ylo:yhi, xlo:xhi]`. -/
def slice2d (a : Mat α) (ylo yhi xlo xhi : ℤ) : Mat α :=
  (pySlice a ylo yhi).map (fun row => pySlice row xlo xhi)

/-- numpy `np.roll(xs, k)` along a 1D axis: `result[i] = xs[(i - k) mod n]`. -/
def np_roll [Inhabited α] (k : ℤ) (xs : List α) : List α :=
  (List.range xs.length).map (fun i : ℕ =>
    xs.getD (((i : ℤ) - k).emod xs.length).toNat default)

/-- numpy `np.roll(a, k, axis=0)` (rows). -/
def np_roll_rows (k : ℤ) (a : Mat α) : Mat α :=
  (List.range a.length).map (fun i : ℕ => a.getD (((i : ℤ) - k).emod a.length).toNat [])

/-- numpy `np.roll(a, k, axis=1)` (columns). -/
def np_roll_cols [Inhabited α] (k : ℤ) (a : Mat α) : Mat α := a.map (np_roll k)

end Ercpy

namespace Ercpy

/-- Errors surfaced by the Python code as modelled here.  `boundsError` is the
spec's abstract BoundsError for an explicit region-of-interest bounds check;
nothing in the source performs such a check, so no definition below ever
produces it (slices clip silently).  `booleanIndexMismatch` is numpy's
IndexError for boolean-mask indexing with a mask whose shape differs from the
indexed array.  `valueError` carries the exception message for numpy/scipy
ValueErrors and explicit `raise ValueError(...)` statements. -/
inductive Err where
  | boundsError
  | booleanIndexMismatch
  | configurationError
  | valueError (msg : String)
deriving DecidableEq, Repr

/-- numpy's message when elementwise arithmetic meets incompatible shapes. -/
def broadcastMsg : String := "operands could not be broadcast together"

/-- The message of `raise ValueError` in the unknown-method branch of align_img. -/
def wrongMethodMsg : String := "Wrong method argument! Check doc."

/-- The message of `raise ValueError` in the manual branch of mtools.align_img. -/
def manualMsg : String := "Method manual requires shifts provided in manualxy argument."

/-- scipy's message when `medfilt` receives an even kernel size. -/
def oddKernelMsg : String := "Each element of kernel_size should be odd."

/-- numpy's message when `argmax` is applied to an empty array. -/
def argmaxEmptyMsg : String := "attempt to get argmax of an empty sequence"

/-- Checked elementwise product of 2D arrays.  numpy broadcasting is modelled
as requiring equal shapes (no input considered here has a broadcastable
size-1 dimension). -/
def mul2d [Mul α] (a b : Mat α) : Except Err (Mat α) :=
  if shape a = shape b then .ok (zip2d (· * ·) a b) else .error (.valueError broadcastMsg)

/-- Accumulator loop behind numpy `argmax`: scan the remaining list `xs`
(whose head sits at flat position `i`), keeping the first position `bi` whose
value `bv` attains the running maximum of `key`; strict `<` in the update
means ties keep the earlier index, as numpy does. -/
def argmaxAux [LinearOrder β] (key : α → β) : List α → ℕ → α → ℕ → ℕ × α
  | [], bi, bv, _ => (bi, bv)
  | x :: rest, bi, bv, i =>
    if key bv < key x then argmaxAux key rest i x (i + 1)
    else argmaxAux key rest bi bv (i + 1)

/-- numpy `argmax` over a flattened array with an explicit comparison key:
first flat index attaining the maximum key, `none` on an empty array (numpy
raises ValueError there). -/
def np_argmax [LinearOrder β] (key : α → β) : List α → Option (ℕ × α)
  | [] => none
  | x :: rest => some (argmaxAux key rest 0 x 1)

/-- numpy's ordering of complex values (used by `argmax` on a complex array):
lexicographic on the real part, then the imaginary part.  Note this is NOT
the magnitude ordering. -/
def ckey (z : ℂ) : ℝ ×ₗ ℝ := toLex (z.re, z.im)

/-- numpy `np.arctan2 y x`: the angle of the point `(x, y)` in `(-π, π]`. -/
def arctan2 (y x : ℝ) : ℝ :=
  if 0 < x then Real.arctan (y / x)
  else if x < 0 then
    (if 0 ≤ y then Real.arctan (y / x) + Real.pi else Real.arctan (y / x) - Real.pi)
  else if 0 < y then Real.pi / 2
  else if y < 0 then -Real.pi / 2
  else 0

/-- One entry of the centred 2D discrete Fourier transform (`scipy.fftpack.fft2`):
standard forward DFT with negative exponent and no normalisation. -/
def dft_entry (a : Mat ℂ) (m n k l : ℕ) : ℂ :=
  ∑ j ∈ Finset.range m, ∑ i ∈ Finset.range n,
    entry2d a j i 0 *
      Complex.exp (-2 * Real.pi * Complex.I * ((k : ℂ) * j / m + (l : ℂ) * i / n))

/-- scipy `fft2`: the full 2D DFT of a 2D array. -/
def fft2 (a : Mat ℂ) : Mat ℂ :=
  (List.range a.length).map fun k : ℕ => (List.range (ncols a)).map fun l : ℕ =>
    dft_entry a a.length (ncols a) k l

/-- scipy `fftshift` on a 2D array: roll every axis by half its length
(`n / 2` rounding down), moving the zero-frequency entry to the centre. -/
def fftshift [Inhabited α] (a : Mat α) : Mat α :=
  np_roll_cols (ncols a / 2) (np_roll_rows (a.length / 2) a)

/-- One entry of the inverse 2D DFT (`scipy.fftpack.ifft2`): positive exponent
and `1/(m*n)` normalisation. -/
def idft_entry (a : Mat ℂ) (m n k l : ℕ) : ℂ :=
  (∑ j ∈ Finset.range m, ∑ i ∈ Finset.range n,
    entry2d a j i 0 *
      Complex.exp (2 * Real.pi * Complex.I * ((k : ℂ) * j / m + (l : ℂ) * i / n))) / (m * n)

/-- scipy `ifft2`: the full inverse 2D DFT of a 2D array. -/
def ifft2 (a : Mat ℂ) : Mat ℂ :=
  (List.range a.length).map fun k : ℕ => (List.range (ncols a)).map fun l : ℕ =>
    idft_entry a a.length (ncols a) k l

/-- numpy `np.sinc`: `sin(πx)/(πx)` extended by 1 at 0. -/
def np_sinc (x : ℝ) : ℝ :=
  if x = 0 then 1 else Real.sin (Real.pi * x) / (Real.pi * x)

/-- numpy `np.round`: round half to even (banker's rounding). -/
def np_round (x : ℝ) : ℤ :=
  if Int.fract x < 1 / 2 then ⌊x⌋
  else if 1 / 2 < Int.fract x then ⌊x⌋ + 1
  else if Even ⌊x⌋ then ⌊x⌋ else ⌊x⌋ + 1

/-- Zero-padded entry access on `ℤ` indices (the padding `scipy.signal.medfilt`
applies at the boundary). -/
def getZ (img : Mat ℝ) (y x : ℤ) : ℝ :=
  if 0 ≤ y ∧ 0 ≤ x then entry2d img y.toNat x.toNat 0 else 0

/-- Middle element of the sorted list: the median of a list of odd length. -/
def medianOdd (xs : List ℝ) : ℝ := (xs.insertionSort (· ≤ ·)).getD (xs.length / 2) 0

/-- scipy `signal.medfilt` with a square `k × k` kernel: zero padding at the
boundary, median of each window; raises ValueError for an even kernel size. -/
def medfilt (img : Mat ℝ) (k : ℕ) : Except Err (Mat ℝ) :=
  if k % 2 = 0 then .error (.valueError oddKernelMsg)
  else .ok ((List.range img.length).map fun i : ℕ => (List.range (ncols img)).map fun j : ℕ =>
    medianOdd (((List.range k).map fun di : ℕ => (List.range k).map fun dj : ℕ =>
      getZ img ((i : ℤ) + di - (k / 2 : ℕ)) ((j : ℤ) + dj - (k / 2 : ℕ))).flatten))

/-- numpy `np.mean` over all entries of a 2D array. -/
def np_mean (a : Mat ℝ) : ℝ := a.flatten.sum / a.flatten.length

/-- numpy `np.var` over all entries: population variance, mean of squared
deviations from the mean. -/
def np_var (a : Mat ℝ) : ℝ :=
  ((a.flatten.map (fun x => (x - np_mean a) ^ 2)).sum) / a.flatten.length

/-- One polygon edge crosses the horizontal ray going right from `(y, x)`. -/
def edgeCrosses (p q : ℝ × ℝ) (y x : ℝ) : Prop :=
  ((p.1 ≤ y ∧ y < q.1) ∨ (q.1 ≤ y ∧ y < p.1)) ∧
    x < p.2 + (y - p.1) * (q.2 - p.2) / (q.1 - p.1)

/-- Point-in-polygon by the even-odd (crossing-number) rule over the closed
vertex cycle.  Models the external `skimage.draw.polygon` scanline fill; only
the shape of the resulting mask matters for the claims below. -/
def pointInPoly (vr vc : List ℝ) (y x : ℝ) : Prop :=
  Odd ((((vr.zip vc).zip ((vr.zip vc).rotate 1)).countP
    (fun e => decide (edgeCrosses e.1 e.2 y x))))

/-- numpy boolean-mask assignment `base[cond] = 1`: requires the mask's shape
to equal the array's shape, else numpy raises IndexError. -/
def bool_mask_assign (base : Mat ℝ) (cond : Mat Bool) : Except Err (Mat ℝ) :=
  if shape base = shape cond then
    .ok (zip2d (fun v c => if c then 1 else v) base cond)
  else .error .booleanIndexMismatch

/-- scipy `ifftshift` on a 2D array: the inverse of `fftshift`, rolling every
axis back by half its length. -/
def np_ifftshift [Inhabited α] (a : Mat α) : Mat α :=
  np_roll_cols (-((ncols a : ℤ) / 2)) (np_roll_rows (-((a.length : ℤ) / 2)) a)

namespace utils

/-- utils.poly_to_mask: rasterise the polygon with row coordinates `vr` and
column coordinates `vc` into a boolean mask of the given shape
(`skimage.draw.polygon` clips the filled coordinates to the shape, so the
result always has exactly shape `s`). -/
def poly_to_mask (vr vc : List ℝ) (s : ℕ × ℕ) : Mat Bool :=
  (List.range s.1).map fun j : ℕ => (List.range s.2).map fun i : ℕ =>
    decide (pointInPoly vr vc (j : ℝ) (i : ℝ))

/-- utils.wrap_to_pi: `np.mod(angle + π, 2π) - π`. -/
def wrap_to_pi (a : ℝ) : ℝ := pymod (a + Real.pi) (2 * Real.pi) - Real.pi

/-- utils.wrap: `angle % (2π)` (numpy semantics, result in `[0, 2π)`). -/
def wrap (a : ℝ) : ℝ := pymod a (2 * Real.pi)

end utils

/-- A Python value appearing in the tuple returned by rm_duds: an image, a
boolean mask, or an integer.  Used to model the (heterogeneous) returned
tuple as a list. -/
inductive PyVal where
  | arr (a : Mat ℝ)
  | bmask (b : Mat Bool)
  | int (n : ℕ)

namespace utils

/-- utils.rm_duds (identical to mtools.rm_duds): median filter the image,
take the absolute deviation, threshold at `sigma * sqrt(var(deviation))`,
replace the pixels above the threshold by their median-filtered values
(in place in the source), and return `(img, duds)`.  The outlier count
`n_duds = np.sum(duds)` is printed, not returned. -/
def rm_duds (img : Mat ℝ) (sigma : ℝ) (median_k : ℕ) : Except Err (List PyVal) := do
  let img_mf ← medfilt img median_k
  let diff_img := zip2d (fun a b => |a - b|) img img_mf
  let mean_diff := sigma * Real.sqrt (np_var diff_img)
  let duds := map2d (fun d => decide (mean_diff < d)) diff_img
  let img2 := zip2d (fun p b => if b then p.2 else p.1) (zip2d Prod.mk img img_mf) duds
  .ok [PyVal.arr img2, PyVal.bmask duds]

end utils

namespace mtools

/-- mtools.rm_duds is textually identical to utils.rm_duds. -/
def rm_duds := utils.rm_duds

end mtools

/-- Written from the spec's words (§4.4 DespikeFilter contract), for
comparison with the source's rm_duds:
`despike(image, sigma, kernelSize) -> (cleanedImageInPlace, outlierMask, count)`
— identical median/deviation/threshold semantics, but the kernel must be odd
and at least 3 and sigma positive (ConfigurationError otherwise), and the
returned tuple carries the outlier count as a third component. -/
def despike_spec (img : Mat ℝ) (sigma : ℝ) (kernelSize : ℕ) : Except Err (List PyVal) :=
  if kernelSize % 2 = 0 ∨ kernelSize < 3 ∨ ¬ 0 < sigma then .error .configurationError
  else do
    let img_mf ← medfilt img kernelSize
    let diff_img := zip2d (fun a b => |a - b|) img img_mf
    let threshold := sigma * Real.sqrt (np_var diff_img)
    let duds := map2d (fun d => decide (threshold < d)) diff_img
    let img2 := zip2d (fun p b => if b then p.2 else p.1) (zip2d Prod.mk img img_mf) duds
    .ok [PyVal.arr img2, PyVal.bmask duds, PyVal.int (duds.flatten.count true)]

/-- A mouse-drawn rectangle (utils.RoiRect); the interactive selection is
modelled as an explicit input. -/
structure Rect where
  x0 : ℤ
  y0 : ℤ
  x1 : ℤ
  y1 : ℤ

/-- Zero-padded cross-correlation score of two images at an integer shift. -/
def xcorr_score (a b : Mat ℝ) (dy dx : ℤ) : ℝ :=
  (((List.range a.length).map fun i : ℕ => (((List.range (ncols a)).map fun j : ℕ =>
    entry2d a i j 0 * getZ b ((i : ℤ) - dy) ((j : ℤ) - dx)).sum)).sum)

/-- Modelled external collaborator `skimage.feature.register_translation`
(the spec's "sub-pixel phase-correlation-style translation estimator",
an external library routine, not part of this repository).  Modelled as the
integer shift maximising the real-space cross-correlation; the sub-pixel
upsampled refinement is not modelled and the `upsample` argument is unused.
Returns `(shift(dy, dx), error, diffphase)`.  No claim depends on the value
this estimator returns. -/
def register_translation (a b : Mat ℝ) (upsample : ℝ) : (ℝ × ℝ) × ℝ × ℝ :=
  let m := a.length
  let n := ncols a
  let offs : List (ℤ × ℤ) :=
    (((List.range (2 * m + 1)).map fun p : ℕ => (List.range (2 * n + 1)).map fun q : ℕ =>
      (((p : ℤ) - m, (q : ℤ) - n) : ℤ × ℤ))).flatten
  match np_argmax (fun o => xcorr_score a b o.1 o.2) offs with
  | none => ((0, 0), 0, 0)
  | some (_, o) => (((o.1 : ℝ), (o.2 : ℝ)), 0, 0)

/-- scipy `signal.correlate2d(in1, in2)` with the default mode `full` and zero
fill: output shape `(m1+m2-1, n1+n2-1)`. -/
def correlate2d_full (in1 in2 : Mat ℝ) : Mat ℝ :=
  let m2 := in2.length
  let n2 := ncols in2
  (List.range (in1.length + m2 - 1)).map fun k : ℕ =>
    (List.range (ncols in1 + n2 - 1)).map fun l : ℕ =>
      (((List.range in1.length).map fun i : ℕ => (((List.range (ncols in1)).map fun j : ℕ =>
        entry2d in1 i j 0 *
          getZ in2 ((i : ℤ) - k + (m2 - 1 : ℕ)) ((j : ℤ) - l + (n2 - 1 : ℕ))).sum)).sum)

/-- Half-sample symmetric boundary index (scipy boundary='symm'). -/
def symIdx (n : ℕ) (i : ℤ) : ℕ :=
  let j := (i.emod (2 * n)).toNat
  if j < n then j else 2 * n - 1 - j

/-- Entry access with symmetric boundary reflection. -/
def getSym (img : Mat ℝ) (y x : ℤ) : ℝ :=
  entry2d img (symIdx img.length y) (symIdx (ncols img) x) 0

/-- scipy `signal.correlate2d(in1, in2, boundary='symm', mode='same')`:
output of the shape of `in1`, symmetric boundary.  No claim depends on the
values this correlation returns. -/
def correlate2d_symm_same (in1 in2 : Mat ℝ) : Mat ℝ :=
  let m2 := in2.length
  let n2 := ncols in2
  (List.range in1.length).map fun k : ℕ => (List.range (ncols in1)).map fun l : ℕ =>
    (((List.range m2).map fun i : ℕ => (((List.range n2).map fun j : ℕ =>
      entry2d in2 i j 0 *
        getSym in1 ((k : ℤ) + i - (m2 / 2 : ℕ)) ((l : ℤ) + j - (n2 / 2 : ℕ))).sum)).sum)

/-- Modelled external `scipy.misc.imresize` with a float factor:
nearest-neighbour resampling to the scaled size (the uint8 range conversion
scipy applies is not modelled; no claim depends on this helper's values). -/
def imresize (img : Mat ℝ) (factor : ℝ) : Mat ℝ :=
  (List.range (pyint (factor * img.length)).toNat).map fun i : ℕ =>
    (List.range (pyint (factor * ncols img)).toNat).map fun j : ℕ =>
      entry2d img (pyint ((i : ℝ) / factor)).toNat (pyint ((j : ℝ) / factor)).toNat 0

/-- Shared preprocessing of both align_img variants when `sb_filtering` is
set: keep a low-frequency disk of radius `filt_size` in the centred spectrum
of each image (the mask is built from `img_one`'s shape for both) and take
the magnitude of the inverse transform. -/
def sb_filter_pair (img_one img_two : Mat ℝ) (filt_size : ℝ) :
    Except Err (Mat ℝ × Mat ℝ) := do
  let ry := img_one.length
  let cx := ncols img_one
  let fft_img_one := fftshift (fft2 (toC img_one))
  let gx := (linspace ((pydiv (-(ry : ℤ)) 2 : ℤ) : ℝ) (((pydiv (ry : ℤ) 2 : ℤ) : ℝ) - 1) ry)
  let gy := (linspace ((pydiv (-(cx : ℤ)) 2 : ℤ) : ℝ) (((pydiv (cx : ℤ) 2 : ℤ) : ℝ) - 1) cx)
  let rr := (List.range gy.length).map fun j : ℕ => (List.range gx.length).map fun i : ℕ =>
    Real.sqrt ((gx.getD i 0) ^ 2 + (gy.getD j 0) ^ 2)
  let mask ← bool_mask_assign (zeros ry cx) (map2d (fun v => decide (v < filt_size)) rr)
  let one_f ← mul2d fft_img_one (toC mask)
  let fft_img_two := fftshift (fft2 (toC img_two))
  let two_f ← mul2d fft_img_two (toC mask)
  .ok (map2d (fun z => Complex.abs z) (ifft2 (np_ifftshift one_f)),
       map2d (fun z => Complex.abs z) (ifft2 (np_ifftshift two_f)))

namespace utils

/-- utils.align_img: dispatches only the strategies `imgreg` (sub-pixel image
registration with ROI-derived upsampling and pixel rescale) and `xcorr`
(full real-space cross-correlation); any other method name, including the
documented `feducial` and `manual`, raises
`ValueError('Wrong method argument! Check doc.')`.  The interactive RoiRect
selection (`roi=True`) is modelled by the explicit `rectSel` input; plotting
and printing are dropped.  The drift is applied to `img_two` by numpy `roll`
(wrap-around) on both axes. -/
def align_img (img_one img_two : Mat ℝ) (method : String) (roi : Bool)
    (rectSel : Rect) (sb_filtering : Bool) (filt_size : ℝ)
    (manualxy : Option (ℤ × ℤ)) : Except Err (Mat ℝ × (ℝ × ℝ)) := do
  let ry := img_one.length
  let cx := ncols img_one
  let pair ← (if sb_filtering then sb_filter_pair img_one img_two filt_size
              else .ok (img_one, img_two))
  let rect : Rect := if roi then rectSel else ⟨0, 0, (cx : ℤ) - 1, (ry : ℤ) - 1⟩
  let drifts : Except Err (ℝ × ℝ) :=
    if method = "imgreg" then
      let img_one_roi := slice2d pair.1 rect.y0 rect.y1 rect.x0 rect.x1
      let img_two_roi := slice2d pair.2 rect.y0 rect.y1 rect.x0 rect.x1
      let px_rescale_y := (pair.1.length : ℝ) / (img_one_roi.length : ℝ)
      let px_rescale_x := ((ncols pair.1 : ℕ) : ℝ) / ((ncols img_one_roi : ℕ) : ℝ)
      let upsample := min px_rescale_x px_rescale_y
      let s := (register_translation img_one_roi img_two_roi upsample).1
      .ok (s.2 * px_rescale_x, s.1 * px_rescale_y)
    else if method = "xcorr" then
      let template := slice2d pair.1 rect.y0 rect.y1 rect.x0 rect.x1
      let cc := correlate2d_full template pair.2
      match np_argmax (fun x => |x|) cc.flatten with
      | none => .error (.valueError argmaxEmptyMsg)
      | some (imax, _) =>
        let ypeak := imax / ncols cc
        let xpeak := imax % ncols cc
        .ok (((rect.x0 - xpeak - (ncols template : ℕ) - 1 : ℤ) : ℝ),
             ((rect.y0 - ypeak - (template.length : ℕ) - 1 : ℤ) : ℝ))
    else .error (.valueError wrongMethodMsg)
  match drifts with
  | .error e => .error e
  | .ok (xdrift, ydrift) =>
    .ok (np_roll_cols (pyint xdrift) (np_roll_rows (pyint ydrift) img_two),
         (xdrift, ydrift))

end utils

namespace mtools

/-- mtools.align_img: dispatches `imgreg` (fixed upsample factor 4, shift used
directly), `xcorr` (binned, symmetric-boundary same-mode cross-correlation),
`feducial` (one interactively picked marker per image, modelled by the
explicit `marker_one`/`marker_two` inputs), and `manual` (drift supplied in
`manualxy`, ValueError when missing); any other name raises
`ValueError('Wrong method argument! Check doc.')`.  The drift is applied to
`img_two` by numpy `roll` (wrap-around) on both axes; `show` plotting is
dropped. -/
def align_img (img_one img_two : Mat ℝ) (method : String) (roi : Bool)
    (rectSel : Rect) (sb_filtering : Bool) (filt_size : ℝ) (binning : ℤ)
    (marker_one marker_two : ℝ × ℝ) (manualxy : Option (ℤ × ℤ)) :
    Except Err (Mat ℝ × (ℝ × ℝ)) := do
  let ry := img_one.length
  let cx := ncols img_one
  let pair ← (if sb_filtering then sb_filter_pair img_one img_two filt_size
              else .ok (img_one, img_two))
  let rect : Rect := if roi then rectSel else ⟨0, 0, (cx : ℤ) - 1, (ry : ℤ) - 1⟩
  let drifts : Except Err (ℝ × ℝ) :=
    if method = "imgreg" then
      let img_one_roi := slice2d pair.1 rect.y0 rect.y1 rect.x0 rect.x1
      let img_two_roi := slice2d pair.2 rect.y0 rect.y1 rect.x0 rect.x1
      let s := (register_translation img_one_roi img_two_roi 4).1
      .ok (s.2, s.1)
    else if method = "xcorr" then
      let img_one_b := imresize pair.1 (1 / (binning : ℝ))
      let img_two_b := imresize pair.2 (1 / (binning : ℝ))
      let template := slice2d img_two_b (pydiv rect.y0 binning) (pydiv rect.y1 binning)
        (pydiv rect.x0 binning) (pydiv rect.x1 binning)
      let cc := correlate2d_symm_same img_one_b template
      match np_argmax (fun x => |x|) cc.flatten with
      | none => .error (.valueError argmaxEmptyMsg)
      | some (imax, _) =>
        let ypeak := imax / ncols cc
        let xpeak := imax % ncols cc
        .ok (((((xpeak : ℤ) - pydiv (rect.x1 - rect.x0) 2) * binning : ℤ) : ℝ),
             ((((ypeak : ℤ) - pydiv (rect.y1 - rect.y0) 2) * binning : ℤ) : ℝ))
    else if method = "feducial" then
      .ok (marker_one.1 - marker_two.1, marker_one.2 - marker_two.2)
    else if method = "manual" then
      match manualxy with
      | some m => .ok ((m.1 : ℝ), (m.2 : ℝ))
      | none => .error (.valueError manualMsg)
    else .error (.valueError wrongMethodMsg)
  match drifts with
  | .error e => .error e
  | .ok (xdrift, ydrift) =>
    .ok (np_roll_cols (pyint xdrift) (np_roll_rows (pyint ydrift) img_two),
         (xdrift, ydrift))

end mtools

namespace holography

/-- Reconstruction parameters, the source's `rec_param` tuple
`(SBrect x0, y0, x1, y1, SB size)`. -/
structure RecParam where
  x0 : ℤ
  y0 : ℤ
  x1 : ℤ
  y1 : ℤ
  size : ℤ

/-- The tuple returned by holography.reconstruct:
`(wave, phase, amp, rec_param)`. -/
structure RecResult where
  wave : Mat ℂ
  phase : Mat ℝ
  amp : Mat ℝ
  rec_param : RecParam

/-- The sideband region of interest cut out of the centred transform
(`reconstruct_holo`): `h_hw_fft[sb_pos[0]-sb_size/2 : sb_pos[0]+sb_size/2,
sb_pos[1]-sb_size/2 : sb_pos[1]+sb_size/2]` with Python slice semantics
(integer division flooring; endpoints silently clipped or, when negative,
counted from the end — no bounds check of any kind). -/
def sb_roi_of (holo_data : Mat ℝ) (sb_pos : ℤ × ℤ) (sb_size : ℤ) : Mat ℂ :=
  slice2d (fftshift (fft2 (toC holo_data)))
    (sb_pos.1 - pydiv sb_size 2) (sb_pos.1 + pydiv sb_size 2)
    (sb_pos.2 - pydiv sb_size 2) (sb_pos.2 + pydiv sb_size 2)

/-- The circular aperture of `reconstruct_holo`: radial grid from
`np.arange(-n/2, n/2)` on both axes, then `c_mask = np.zeros((sb_nx, sb_ny))`
(note the transposed shape, as in the source) with `c_mask[sb_r < sb_l] = 1`
— numpy boolean-mask assignment, an IndexError when the shapes disagree. -/
def c_mask_of (sb_ny sb_nx sb_l : ℕ) : Except Err (Mat ℝ) :=
  let cgrid_y := (arangeI (pydiv (-(sb_ny : ℤ)) 2) (pydiv (sb_ny : ℤ) 2)).map
    (fun z => (z : ℝ))
  let cgrid_x := (arangeI (pydiv (-(sb_nx : ℤ)) 2) (pydiv (sb_nx : ℤ) 2)).map
    (fun z => (z : ℝ))
  let sb_r := (List.range cgrid_y.length).map fun j : ℕ =>
    (List.range cgrid_x.length).map fun i : ℕ =>
      Real.sqrt ((cgrid_x.getD i 0) ^ 2 + (cgrid_y.getD j 0) ^ 2)
  bool_mask_assign (zeros sb_nx sb_ny) (map2d (fun r => decide (r < (sb_l : ℝ))) sb_r)

/-- The angle used by the Fresnel mask of `reconstruct_holo`:
`np.arctan2(sx/2 - sb_pos[0], sy/2 - sb_pos[1])` — the angle of the vector
pointing FROM the sideband position TO the hologram's centre. -/
def fresnel_ang (sx sy : ℕ) (sb_pos : ℤ × ℤ) : ℝ :=
  arctan2 ((pydiv (sx : ℤ) 2 - sb_pos.1 : ℤ) : ℝ) ((pydiv (sy : ℤ) 2 - sb_pos.2 : ℤ) : ℝ)

/-- The four rasterised corners `aa, bb, cc, dd` (as `(y, x)` pairs) of the
Fresnel-exclusion quadrilateral, exactly as built by `reconstruct_holo`:
radial points `p_one`, `p_two` at `fresnel_ratio * sb_l` and `sb_l` along
`ang`, displaced by `r = fresnel_width/2` (Python integer division) along
`wrap(ang ± π/2)`, with numpy rounding at each step, shifted by the ROI
centre `cen`. -/
def fresnel_abcd (ang : ℝ) (sb_l : ℕ) (fratio : ℝ) (fwidth : ℤ) (cen : ℤ × ℤ) :
    List (ℝ × ℝ) :=
  let p_one : ℝ × ℝ := ((np_round (fratio * sb_l * Real.sin ang) : ℤ),
                        (np_round (fratio * sb_l * Real.cos ang) : ℤ))
  let p_two : ℝ × ℝ := ((np_round ((sb_l : ℝ) * Real.sin ang) : ℤ),
                        (np_round ((sb_l : ℝ) * Real.cos ang) : ℤ))
  let ang_one := utils.wrap (ang - Real.pi / 2)
  let ang_two := utils.wrap (ang + Real.pi / 2)
  let r : ℝ := ((pydiv fwidth 2 : ℤ) : ℝ)
  [(((np_round (p_one.1 + r * Real.sin ang_one) + cen.1 : ℤ) : ℝ),
    ((np_round (p_one.2 + r * Real.cos ang_one) + cen.2 : ℤ) : ℝ)),
   (((np_round (p_one.1 + r * Real.sin ang_two) + cen.1 : ℤ) : ℝ),
    ((np_round (p_one.2 + r * Real.cos ang_two) + cen.2 : ℤ) : ℝ)),
   (((np_round (p_two.1 + r * Real.sin ang_two) + cen.1 : ℤ) : ℝ),
    ((np_round (p_two.2 + r * Real.cos ang_two) + cen.2 : ℤ) : ℝ)),
   (((np_round (p_two.1 + r * Real.sin ang_one) + cen.1 : ℤ) : ℝ),
    ((np_round (p_two.2 + r * Real.cos ang_one) + cen.2 : ℤ) : ℝ))]

/-- The same four corner points before any rounding and relative to the ROI
centre (`cen` not yet added): the ideal geometry from which `fresnel_abcd`
is obtained by numpy rounding. -/
def fresnel_corners_ideal (ang : ℝ) (l fratio r : ℝ) : List (ℝ × ℝ) :=
  [(fratio * l * Real.sin ang + r * Real.sin (utils.wrap (ang - Real.pi / 2)),
    fratio * l * Real.cos ang + r * Real.cos (utils.wrap (ang - Real.pi / 2))),
   (fratio * l * Real.sin ang + r * Real.sin (utils.wrap (ang + Real.pi / 2)),
    fratio * l * Real.cos ang + r * Real.cos (utils.wrap (ang + Real.pi / 2))),
   (l * Real.sin ang + r * Real.sin (utils.wrap (ang + Real.pi / 2)),
    l * Real.cos ang + r * Real.cos (utils.wrap (ang + Real.pi / 2))),
   (l * Real.sin ang + r * Real.sin (utils.wrap (ang - Real.pi / 2)),
    l * Real.cos ang + r * Real.cos (utils.wrap (ang - Real.pi / 2)))]

/-- The Fresnel-exclusion mask of `reconstruct_holo`: rasterise the corner
quadrilateral `abcd` with `utils.poly_to_mask(abcd[:,1], abcd[:,0], shape)`
(columns passed as row coordinates and vice versa, as in the source). -/
def f_mask_of (sx sy : ℕ) (sb_pos : ℤ × ℤ) (sb_l : ℕ) (fratio : ℝ) (fwidth : ℤ)
    (cen : ℤ × ℤ) (sh : ℕ × ℕ) : Mat Bool :=
  let ang := fresnel_ang sx sy sb_pos
  let abcd := fresnel_abcd ang sb_l fratio fwidth cen
  utils.poly_to_mask (abcd.map (fun q => q.2)) (abcd.map (fun q => q.1)) sh

/-- The separable apodisation window of `reconstruct_holo`:
`w_one = np.sinc(np.linspace(-sb_size/2, sb_size/2, sb_size) * π / (5.0 * sb_size))`
(inclusive linspace endpoints, Python integer division in `-sb_size/2`),
`w_two = outer(w_one, w_one)`. -/
def w_two_of (sb_size : ℤ) : Mat ℝ :=
  let w_one := (linspace ((pydiv (-sb_size) 2 : ℤ) : ℝ) ((pydiv sb_size 2 : ℤ) : ℝ)
      sb_size.toNat).map (fun x => np_sinc (x * Real.pi / (5.0 * (sb_size : ℝ))))
  w_one.map (fun u => w_one.map (fun v => u * v))

/-- The default Fresnel ratio: Python tests falsiness, so both an empty
argument (None here) and 0 select 0.3. -/
def fr_default (o : Option ℝ) : ℝ := match o with
  | none => 0.3
  | some x => if x = 0 then 0.3 else x

/-- The default Fresnel width: both an empty argument and 0 select 6. -/
def fw_default (o : Option ℤ) : ℤ := match o with
  | none => 6
  | some x => if x = 0 then 6 else x

/-- holography.reconstruct_holo: centred FFT without apodisation, sideband
cut-out, circular aperture, Fresnel-exclusion polygon mask, sinc window,
recentring and inverse FFT.  Empty-list/zero arguments select the defaults
`fresnel_ratio = 0.3`, `fresnel_width = 6` (the Python code tests falsiness).
Polygon corner columns are passed as row coordinates and vice versa, exactly
as the source calls `utils.poly_to_mask(abcd[:,1], abcd[:,0], shape)`. -/
def reconstruct_holo (holo_data : Mat ℝ) (sb_size : ℤ) (sb_pos : ℤ × ℤ)
    (fresnel_ratio : Option ℝ) (fresnel_width : Option ℤ) : Except Err (Mat ℂ) := do
  let fratio : ℝ := fr_default fresnel_ratio
  let fwidth : ℤ := fw_default fresnel_width
  let sx := holo_data.length
  let sy := ncols holo_data
  let sb_roi := sb_roi_of holo_data sb_pos sb_size
  let sb_ny := sb_roi.length
  let sb_nx := ncols sb_roi
  let sb_l := min (sb_ny / 2) (sb_nx / 2)
  let cen : ℤ × ℤ := (((sb_ny / 2 : ℕ) : ℤ), ((sb_nx / 2 : ℕ) : ℤ))
  let c_mask ← c_mask_of sb_ny sb_nx sb_l
  let f_mask := f_mask_of sx sy sb_pos sb_l fratio fwidth cen (sb_ny, sb_nx)
  let w_two := w_two_of sb_size
  let m1 ← mul2d sb_roi (toC c_mask)
  let m2 ← mul2d m1 (toC (map2d (fun b => if b then (0 : ℝ) else 1) f_mask))
  let m3 ← mul2d m2 (toC w_two)
  .ok (ifft2 (fftshift m3))

/-- The sideband-centre resolution step of holography.reconstruct when
`rec_param` is given (lines 107-111): slice the rectangle out of the shifted
transform, take `arect.argmax()` — numpy's argmax, which on a COMPLEX array
compares lexicographically by real then imaginary part, NOT by magnitude —
unravel it and add the rectangle's origin. -/
def resolve_sideband (eh_hw_fft : Mat ℂ) (rp : RecParam) : ℤ × ℤ :=
  let arect := slice2d eh_hw_fft rp.y0 rp.y1 rp.x0 rp.x1
  match np_argmax ckey arect.flatten with
  | none => (rp.y0, rp.x0)
  | some (idx, _) => (rp.y0 + (idx / ncols arect : ℕ), rp.x0 + (idx % ncols arect : ℕ))

/-- Written from the spec's words ("recompute the sideband center by locating
the magnitude maximum inside spec's rectangle"), for comparison with the
source's `resolve_sideband`: first flat position of the maximum absolute
value, offset by the rectangle's origin. -/
def resolve_sideband_spec (eh_hw_fft : Mat ℂ) (rp : RecParam) : ℤ × ℤ :=
  let arect := slice2d eh_hw_fft rp.y0 rp.y1 rp.x0 rp.x1
  match np_argmax (fun z => Complex.abs z) arect.flatten with
  | none => (rp.y0, rp.x0)
  | some (idx, _) => (rp.y0 + (idx / ncols arect : ℕ), rp.x0 + (idx % ncols arect : ℕ))

/-- Elementwise division of a complex array by a scalar (`w_obj / w_ref` when
the reference wave is the Python scalar 1). -/
def div_scalar (a : Mat ℂ) (c : ℂ) : Mat ℂ := map2d (· / c) a

/-- Checked elementwise complex division (`w_obj / w_ref` for an array-valued
reference wave). -/
def div2d (a b : Mat ℂ) : Except Err (Mat ℂ) :=
  if shape a = shape b then .ok (zip2d (· / ·) a b) else .error (.valueError broadcastMsg)

/-- holography.reconstruct with a given `rec_param`: resolve the sideband
centre by `argmax` inside the rectangle (numpy complex ordering; ValueError
on an empty rectangle), reuse `rec_param`'s size verbatim, reconstruct the
reference wave (the scalar 1 when `ref_data` is None) and the object wave
with `reconstruct_holo`, divide, and return
`(wave, np.angle(wave), np.absolute(wave), rec_param)`.  The interactive
branch (`rec_param=None`: RoiRect selection and keyboard input of the
sideband size) involves the external GUI collaborator and is not modelled —
`rp` is therefore a required argument here. -/
def reconstruct (holo_data : Mat ℝ) (ref_data : Option (Mat ℝ)) (rp : RecParam) :
    Except Err RecResult :=
  let eh_hw_fft := fftshift (fft2 (toC holo_data))
  let arect := slice2d eh_hw_fft rp.y0 rp.y1 rp.x0 rp.x1
  match np_argmax ckey arect.flatten with
  | none => .error (.valueError argmaxEmptyMsg)
  | some (idx, _) =>
    let sb_pos : ℤ × ℤ := (rp.y0 + (idx / ncols arect : ℕ), rp.x0 + (idx % ncols arect : ℕ))
    let sb_size := rp.size
    match ref_data with
    | none => do
      let w_obj ← reconstruct_holo holo_data sb_size sb_pos none none
      let wave := div_scalar w_obj 1
      .ok ⟨wave, map2d (fun z => arctan2 z.im z.re) wave,
           map2d (fun z => Complex.abs z) wave, rp⟩
    | some rd => do
      let w_ref ← reconstruct_holo rd sb_size sb_pos none none
      let w_obj ← reconstruct_holo holo_data sb_size sb_pos none none
      let wave ← div2d w_obj w_ref
      .ok ⟨wave, map2d (fun z => arctan2 z.im z.re) wave,
           map2d (fun z => Complex.abs z) wave, rp⟩

end holography

/-- Written from the claim's wording (and the spec's invariant "sideband ROI
must lie fully within the transformed hologram's bounds"): the square ROI of
edge `size` centred at `center` — rows `[c.1 - size/2, c.1 + size/2)`,
columns likewise — lies fully inside a transform of shape `(rows, cols)`. -/
def roiInBounds (rows cols : ℕ) (center : ℤ × ℤ) (size : ℤ) : Prop :=
  0 ≤ center.1 - pydiv size 2 ∧ center.1 + pydiv size 2 ≤ (rows : ℤ) ∧
  0 ≤ center.2 - pydiv size 2 ∧ center.2 + pydiv size 2 ≤ (cols : ℤ)

/-- Written from the claim's wording for C6: the angle FROM the hologram's
centre TO the sideband centre (the direction the claim asserts the Fresnel
strip points along). -/
def ang_center_to_sb (sx sy : ℕ) (sb_pos : ℤ × ℤ) : ℝ :=
  arctan2 ((sb_pos.1 - pydiv (sx : ℤ) 2 : ℤ) : ℝ) ((sb_pos.2 - pydiv (sy : ℤ) 2 : ℤ) : ℝ)

/-! Concrete example inputs used by witnesses and counterexamples. -/

/-- A 4x4 zero hologram. -/
def h4 : Mat ℝ := zeros 4 4

/-- A 2x2 hologram whose centred transform is `[[0, 9], [-10, 1]]`: the entry
of maximal magnitude (-10) differs from the entry numpy's complex ordering
picks (9). -/
def holoA : Mat ℝ := [[0, 5], [-4.5, 0.5]]

/-- The full-frame reconstruction parameters for a 2x2 hologram, sideband
size 2. -/
def rpA : holography.RecParam := ⟨0, 0, 2, 2, 2⟩

/-- A 2x2 generic image. -/
def h2 : Mat ℝ := [[1, 2], [3, 4]]

/-- A 2x2 zero image. -/
def zB : Mat ℝ := [[0, 0], [0, 0]]

/-! Helper lemmas. -/

theorem pymod_nonneg_of_pos (x y : ℝ) (hy : 0 < y) : 0 ≤ pymod x y := by
  have h : pymod x y = y * Int.fract (x / y) := by
    unfold pymod Int.fract
    field_simp
  rw [h]
  exact mul_nonneg hy.le (Int.fract_nonneg _)

theorem pymod_lt_of_pos (x y : ℝ) (hy : 0 < y) : pymod x y < y := by
  have h : pymod x y = y * Int.fract (x / y) := by
    unfold pymod Int.fract
    field_simp
  rw [h]
  calc y * Int.fract (x / y) < y * 1 := by
        exact (mul_lt_mul_left hy).mpr (Int.fract_lt_one _)
    _ = y := mul_one y

theorem pyint_intCast (n : ℤ) : pyint (n : ℝ) = n := by
  unfold pyint
  split <;> simp

theorem ok_bind {ε α β : Type} (a : α) (f : α → Except ε β) :
    (Except.ok a : Except ε α) >>= f = f a := rfl

theorem error_bind {ε α β : Type} (e : ε) (f : α → Except ε β) :
    (Except.error e : Except ε α) >>= f = Except.error e := rfl

/-- CLAIM C8 (amended): for every real angle `a`, `wrap_to_pi a` lies in the
half-open interval `[-π, π)` — closed at `-π`, open at `π` (the claim stated
`(-π, π]`; the code's `np.mod(a + π, 2π) - π` yields `[-π, π)`). -/
theorem claim_C8_amended (a : ℝ) :
    -Real.pi ≤ utils.wrap_to_pi a ∧ utils.wrap_to_pi a < Real.pi := by
  have h2 : (0 : ℝ) < 2 * Real.pi := by positivity
  constructor
  · have := pymod_nonneg_of_pos (a + Real.pi) (2 * Real.pi) h2
    unfold utils.wrap_to_pi
    linarith
  · have := pymod_lt_of_pos (a + Real.pi) (2 * Real.pi) h2
    unfold utils.wrap_to_pi
    linarith

/-- CLAIM C8 (counterexample): at the concrete input `-π`, `wrap_to_pi`
returns `-π` itself, which is NOT in the claimed interval `(-π, π]` (it fails
the strict lower bound). -/
theorem claim_C8_counterexample :
    utils.wrap_to_pi (-Real.pi) = -Real.pi ∧
      ¬ (-Real.pi < utils.wrap_to_pi (-Real.pi) ∧ utils.wrap_to_pi (-Real.pi) ≤ Real.pi) := by
  have h : utils.wrap_to_pi (-Real.pi) = -Real.pi := by
    unfold utils.wrap_to_pi pymod
    norm_num
  exact ⟨h, by rw [h]; simp⟩

/-- CLAIM C7: with the manual strategy, ROI restriction disabled and
`manualxy = (3, -2)`, mtools.align_img returns exactly the wrap-around roll
of the target image — `np.roll` by `-2` along rows then `3` along columns,
with no cropping — and the drift `(3, -2)`. -/
theorem claim_C7 (img_one img_two : Mat ℝ) (rectSel : Rect) (filt_size : ℝ)
    (binning : ℤ) (marker_one marker_two : ℝ × ℝ)
    (hsh : shape img_one = shape img_two) :
    mtools.align_img img_one img_two "manual" false rectSel false filt_size binning
        marker_one marker_two (some (3, -2)) =
      .ok (np_roll_cols 3 (np_roll_rows (-2) img_two), ((3 : ℝ), (-2 : ℝ))) := by
  unfold mtools.align_img
  simp only [ok_bind]
  norm_num [show "manual" ≠ "imgreg" from by decide, show "manual" ≠ "xcorr" from by decide,
    show "manual" ≠ "feducial" from by decide, pyint_intCast]
  have h3 : pyint (3 : ℝ) = 3 := by
    rw [show (3 : ℝ) = ((3 : ℤ) : ℝ) by norm_num, pyint_intCast]
  have hm2 : pyint (-2 : ℝ) = -2 := by
    rw [show (-2 : ℝ) = ((-2 : ℤ) : ℝ) by norm_num, pyint_intCast]
  simp only [h3, hm2]
  rfl

/-- CLAIM C7 (witness): the theorem instantiated at two concrete equal-shaped
2x2 images. -/
theorem claim_C7_witness :
    mtools.align_img h2 zB "manual" false ⟨0, 0, 1, 1⟩ false 200 2
        (0, 0) (0, 0) (some (3, -2)) =
      .ok (np_roll_cols 3 (np_roll_rows (-2) zB), ((3 : ℝ), (-2 : ℝ))) :=
  claim_C7 h2 zB ⟨0, 0, 1, 1⟩ 200 2 (0, 0) (0, 0) rfl

/-- CLAIM C10: the align_img variant in utils.py dispatches only the
`imgreg` and `xcorr` strategies; for every pair of images (with the default
`sb_filtering=False`), calling it with method `feducial` or `manual` — both
documented in its own docstring — falls through to the unknown-strategy
branch and raises `ValueError('Wrong method argument! Check doc.')` without
computing any alignment. -/
theorem claim_C10 (img_one img_two : Mat ℝ) (roi : Bool) (rectSel : Rect)
    (filt_size : ℝ) (manualxy : Option (ℤ × ℤ)) (method : String)
    (hm : method = "feducial" ∨ method = "manual") :
    utils.align_img img_one img_two method roi rectSel false filt_size manualxy =
      .error (.valueError wrongMethodMsg) := by
  unfold utils.align_img
  rcases hm with rfl | rfl <;>
    norm_num [ok_bind, show "feducial" ≠ "imgreg" from by decide,
      show "feducial" ≠ "xcorr" from by decide, show "manual" ≠ "imgreg" from by decide,
      show "manual" ≠ "xcorr" from by decide]

/-- CLAIM C10 (witness): the theorem instantiated at concrete images for both
offending method names. -/
theorem claim_C10_witness :
    utils.align_img h2 zB "feducial" true ⟨0, 0, 1, 1⟩ false 200 none =
        .error (.valueError wrongMethodMsg) ∧
      utils.align_img h2 zB "manual" false ⟨0, 0, 1, 1⟩ false 200 (some (1, 1)) =
        .error (.valueError wrongMethodMsg) :=
  ⟨claim_C10 h2 zB true ⟨0, 0, 1, 1⟩ 200 none "feducial" (Or.inl rfl),
   claim_C10 h2 zB false ⟨0, 0, 1, 1⟩ 200 (some (1, 1)) "manual" (Or.inr rfl)⟩

/-- CLAIM C9 (amended): rm_duds performs no validation of its own — the only
failure is scipy's ValueError for an even `median_k` raised inside `medfilt`;
every odd `median_k` (including 1, which the claim said should be rejected)
and every sigma (including non-positive values, which the claim said should
be rejected) is accepted and the call returns normally. -/
theorem claim_C9_amended (img : Mat ℝ) (sigma : ℝ) (k : ℕ) :
    (k % 2 = 0 → utils.rm_duds img sigma k = .error (.valueError oddKernelMsg)) ∧
    (k % 2 = 1 → ∃ v, utils.rm_duds img sigma k = .ok v) := by
  constructor
  · intro h
    unfold utils.rm_duds medfilt
    simp [h, error_bind]
  · intro h
    unfold utils.rm_duds medfilt
    simp [h, ok_bind]

/-- CLAIM C9 (witness): the theorem instantiated at a concrete image, an even
kernel (error) and an odd kernel (success). -/
theorem claim_C9_witness :
    utils.rm_duds zB 8 4 = .error (.valueError oddKernelMsg) ∧
      ∃ v, utils.rm_duds zB 8 3 = .ok v :=
  ⟨(claim_C9_amended zB 8 4).1 rfl, (claim_C9_amended zB 8 3).2 rfl⟩

/-- CLAIM C9 (counterexample): the claim demands ConfigurationError for every
non-positive sigma and for every kernel smaller than 3, but rm_duds succeeds
with `sigma = -1` and also with `median_k = 1` on a concrete image. -/
theorem claim_C9_counterexample :
    (utils.rm_duds zB (-1) 3).isOk = true ∧ (utils.rm_duds zB 8 1).isOk = true := by
  constructor <;> rfl

/-! Entry-level lemmas for 2D arrays. -/

theorem zip2d_row {α β γ : Type} (f : α → β → γ) (a : Mat α) (b : Mat β) (i : ℕ)
    (hia : i < a.length) (hib : i < b.length) :
    (zip2d f a b).getD i [] = List.zipWith f (a.getD i []) (b.getD i []) := by
  unfold zip2d
  have h1 : i < (List.zipWith (List.zipWith f) a b).length := by
    simp only [List.length_zipWith]; omega
  rw [List.getD_eq_getElem _ _ h1, List.getElem_zipWith,
    List.getD_eq_getElem a [] hia, List.getD_eq_getElem b [] hib]

theorem map2d_row {α β : Type} (f : α → β) (a : Mat α) (i : ℕ) (hia : i < a.length) :
    (map2d f a).getD i [] = (a.getD i []).map f := by
  unfold map2d
  have h1 : i < (a.map (·.map f)).length := by simpa using hia
  rw [List.getD_eq_getElem _ _ h1, List.getElem_map, List.getD_eq_getElem a [] hia]

theorem entry2d_zip2d {α β γ : Type} (f : α → β → γ) (a : Mat α) (b : Mat β)
    (i j : ℕ) (da : α) (db : β) (dg : γ)
    (hia : i < a.length) (hib : i < b.length)
    (hja : j < (a.getD i []).length) (hjb : j < (b.getD i []).length) :
    entry2d (zip2d f a b) i j dg = f (entry2d a i j da) (entry2d b i j db) := by
  unfold entry2d
  rw [zip2d_row f a b i hia hib]
  have h2 : j < (List.zipWith f (a.getD i []) (b.getD i [])).length := by
    simp only [List.length_zipWith]; omega
  rw [List.getD_eq_getElem _ _ h2, List.getElem_zipWith,
    List.getD_eq_getElem _ _ hja, List.getD_eq_getElem _ _ hjb]

theorem entry2d_map2d {α β : Type} (f : α → β) (a : Mat α) (i j : ℕ) (da : α) (db : β)
    (hia : i < a.length) (hja : j < (a.getD i []).length) :
    entry2d (map2d f a) i j db = f (entry2d a i j da) := by
  unfold entry2d
  rw [map2d_row f a i hia]
  have h2 : j < ((a.getD i []).map f).length := by simpa using hja
  rw [List.getD_eq_getElem _ _ h2, List.getElem_map, List.getD_eq_getElem _ _ hja]

theorem shape_map2d {α β : Type} (f : α → β) (a : Mat α) : shape (map2d f a) = shape a := by
  cases a with
  | nil => rfl
  | cons x t => simp [shape, map2d, ncols]

theorem shape_zip2d_eq {α β γ : Type} (f : α → β → γ) (a : Mat α) (b : Mat β)
    (h : shape a = shape b) : shape (zip2d f a b) = shape a := by
  cases a with
  | nil =>
    cases b with
    | nil => rfl
    | cons y t =>
      have := congrArg Prod.fst h
      simp [shape] at this
  | cons x s =>
    cases b with
    | nil =>
      have := congrArg Prod.fst h
      simp [shape] at this
    | cons y t =>
      have h1 : s.length = t.length := by
        have := congrArg Prod.fst h
        simpa [shape] using this
      have h2 : x.length = y.length := by
        have := congrArg Prod.snd h
        simpa [shape, ncols] using this
      simp [zip2d, shape, ncols, h1, h2]

/-- Inversion of a successful medfilt call: the odd-kernel branch was taken
and the result is the explicit median-of-window array. -/
theorem medfilt_ok_inv (img : Mat ℝ) (k : ℕ) (mf : Mat ℝ)
    (h : medfilt img k = .ok mf) :
    mf = (List.range img.length).map fun i : ℕ => (List.range (ncols img)).map fun j : ℕ =>
      medianOdd (((List.range k).map fun di : ℕ => (List.range k).map fun dj : ℕ =>
        getZ img ((i : ℤ) + di - (k / 2 : ℕ)) ((j : ℤ) + dj - (k / 2 : ℕ))).flatten) := by
  unfold medfilt at h
  by_cases hk : k % 2 = 0
  · rw [if_pos hk] at h
    cases h
  · rw [if_neg hk] at h
    exact (Except.ok.inj h).symm

theorem medfilt_shape (img : Mat ℝ) (k : ℕ) (mf : Mat ℝ)
    (h : medfilt img k = .ok mf) : shape mf = shape img := by
  rw [medfilt_ok_inv img k mf h]
  cases img with
  | nil => rfl
  | cons x t =>
    simp only [shape, ncols, List.length_cons, List.length_map, List.length_range,
      List.range_succ_eq_map, List.map_cons, List.headD_cons, Prod.mk.injEq]

theorem medfilt_row_len (img : Mat ℝ) (k : ℕ) (mf : Mat ℝ)
    (h : medfilt img k = .ok mf) (i : ℕ) (hi : i < img.length) :
    (mf.getD i []).length = ncols img := by
  rw [medfilt_ok_inv img k mf h]
  have hlen : i < ((List.range img.length).map fun i : ℕ =>
      (List.range (ncols img)).map fun j : ℕ =>
      medianOdd (((List.range k).map fun di : ℕ => (List.range k).map fun dj : ℕ =>
        getZ img ((i : ℤ) + di - (k / 2 : ℕ)) ((j : ℤ) + dj - (k / 2 : ℕ))).flatten)).length := by
    simp only [List.length_map, List.length_range]
    exact hi
  rw [List.getD_eq_getElem _ _ hlen]
  simp only [List.getElem_map, List.getElem_range, List.length_map, List.length_range]

/-- CLAIM C3 (amended): for every rectangular 2D image, every sigma > 0 and
odd kernel >= 3, rm_duds succeeds and returns the pair (cleanedImage,
outlierMask) — NOT the outlier count, which the source only prints — where
the mask marks exactly the pixels whose absolute deviation from the
median-filtered copy strictly exceeds sigma times the standard deviation
(sqrt of the population variance) of the deviation image, and the cleaned
image replaces exactly the marked pixels with the median-filtered values,
leaving all other pixels unchanged. -/
theorem claim_C3_amended (img : Mat ℝ) (sigma : ℝ) (k : ℕ)
    (hrect : rect2d img) (hk : k % 2 = 1) (hk3 : 3 ≤ k) (hs : 0 < sigma) :
    ∃ mf duds cleaned,
      medfilt img k = .ok mf ∧
      utils.rm_duds img sigma k = .ok [PyVal.arr cleaned, PyVal.bmask duds] ∧
      shape duds = shape img ∧
      shape cleaned = shape img ∧
      (∀ i j, i < img.length → j < ncols img →
        (entry2d duds i j false = true ↔
          sigma * Real.sqrt (np_var (zip2d (fun a b => |a - b|) img mf)) <
            |entry2d img i j 0 - entry2d mf i j 0|)) ∧
      (∀ i j, i < img.length → j < ncols img →
        entry2d cleaned i j 0 =
          if entry2d duds i j false = true then entry2d mf i j 0 else entry2d img i j 0) ∧
      (∀ n : ℕ, PyVal.int n ∉ [PyVal.arr cleaned, PyVal.bmask duds]) := by
  obtain ⟨mf, hmf⟩ : ∃ mf, medfilt img k = .ok mf := by
    unfold medfilt
    rw [if_neg (by omega)]
    exact ⟨_, rfl⟩
  have hsh : shape mf = shape img := medfilt_shape img k mf hmf
  have hlen : mf.length = img.length := congrArg Prod.fst hsh
  have hrowi : ∀ i, i < img.length → (img.getD i []).length = ncols img := by
    intro i hi
    rw [List.getD_eq_getElem _ _ hi]
    exact hrect _ (List.getElem_mem hi)
  have hrowm : ∀ i, i < img.length → (mf.getD i []).length = ncols img :=
    medfilt_row_len img k mf hmf
  refine ⟨mf,
    map2d (fun d => decide (sigma * Real.sqrt (np_var (zip2d (fun a b => |a - b|) img mf)) < d))
      (zip2d (fun a b => |a - b|) img mf),
    zip2d (fun p b => if b then p.2 else p.1) (zip2d Prod.mk img mf)
      (map2d (fun d => decide (sigma * Real.sqrt (np_var (zip2d (fun a b => |a - b|) img mf)) < d))
        (zip2d (fun a b => |a - b|) img mf)),
    hmf, ?_, ?_, ?_, ?_, ?_, ?_⟩
  · unfold utils.rm_duds
    rw [hmf, ok_bind]
  · rw [shape_map2d, shape_zip2d_eq _ _ _ hsh.symm]
  · rw [shape_zip2d_eq, shape_zip2d_eq _ _ _ hsh.symm]
    rw [shape_zip2d_eq _ _ _ hsh.symm, shape_map2d, shape_zip2d_eq _ _ _ hsh.symm]
  · intro i j hi hj
    have hib : i < mf.length := by omega
    have hdla : i < (zip2d (fun a b => |a - b|) img mf).length := by
      simp [zip2d, List.length_zipWith]; omega
    have hja : j < (img.getD i []).length := by rw [hrowi i hi]; exact hj
    have hjb : j < (mf.getD i []).length := by rw [hrowm i hi]; exact hj
    have hdja : j < ((zip2d (fun a b => |a - b|) img mf).getD i []).length := by
      rw [zip2d_row _ _ _ _ hi hib]
      simp only [List.length_zipWith]
      omega
    rw [entry2d_map2d _ _ i j 0 _ hdla hdja,
      entry2d_zip2d _ _ _ i j 0 0 _ hi hib hja hjb]
    exact decide_eq_true_iff
  · intro i j hi hj
    have hib : i < mf.length := by omega
    have hja : j < (img.getD i []).length := by rw [hrowi i hi]; exact hj
    have hjb : j < (mf.getD i []).length := by rw [hrowm i hi]; exact hj
    have hpl : i < (zip2d Prod.mk img mf).length := by
      simp [zip2d, List.length_zipWith]; omega
    have hpj : j < ((zip2d Prod.mk img mf).getD i []).length := by
      rw [zip2d_row _ _ _ _ hi hib]
      simp only [List.length_zipWith]
      omega
    have hdla : i < (zip2d (fun a b => |a - b|) img mf).length := by
      simp [zip2d, List.length_zipWith]; omega
    have hdja : j < ((zip2d (fun a b => |a - b|) img mf).getD i []).length := by
      rw [zip2d_row _ _ _ _ hi hib]
      simp only [List.length_zipWith]
      omega
    have hml : i < (map2d (fun d =>
        decide (sigma * Real.sqrt (np_var (zip2d (fun a b => |a - b|) img mf)) < d))
        (zip2d (fun a b => |a - b|) img mf)).length := by
      simpa [map2d] using hdla
    have hmj : j < ((map2d (fun d =>
        decide (sigma * Real.sqrt (np_var (zip2d (fun a b => |a - b|) img mf)) < d))
        (zip2d (fun a b => |a - b|) img mf)).getD i []).length := by
      rw [map2d_row _ _ _ hdla]
      simpa using hdja
    rw [entry2d_zip2d _ _ _ i j (0, 0) false _ hpl hml hpj hmj,
      entry2d_zip2d Prod.mk _ _ i j 0 0 _ hi hib hja hjb]
  · intro n
    simp

/-- CLAIM C3 (witness): the amended theorem instantiated at a concrete 2x2
zero image, sigma = 8, kernel 3. -/
theorem claim_C3_witness :
    ∃ mf duds cleaned,
      medfilt zB 3 = .ok mf ∧
      utils.rm_duds zB 8 3 = .ok [PyVal.arr cleaned, PyVal.bmask duds] ∧
      shape duds = shape zB ∧
      shape cleaned = shape zB ∧
      (∀ i j, i < zB.length → j < ncols zB →
        (entry2d duds i j false = true ↔
          8 * Real.sqrt (np_var (zip2d (fun a b => |a - b|) zB mf)) <
            |entry2d zB i j 0 - entry2d mf i j 0|)) ∧
      (∀ i j, i < zB.length → j < ncols zB →
        entry2d cleaned i j 0 =
          if entry2d duds i j false = true then entry2d mf i j 0 else entry2d zB i j 0) ∧
      (∀ n : ℕ, PyVal.int n ∉ [PyVal.arr cleaned, PyVal.bmask duds]) :=
  claim_C3_amended zB 8 3
    (by intro r hr; simp [zB] at hr; rw [hr]; rfl)
    rfl (by norm_num) (by norm_num)

/-- CLAIM C3 (counterexample): the claim says despike "returns the outlier
mask together with its count"; on a concrete well-formed input the source's
rm_duds returns a 2-tuple (image, mask) while the spec's contract (modelled
by despike_spec) returns the 3-tuple (image, mask, count) — the two return
values differ. -/
theorem claim_C3_counterexample : utils.rm_duds zB 8 3 ≠ despike_spec zB 8 3 := by
  intro h
  have h2 := congrArg (Except.map (fun l : List PyVal => l.length)) h
  have hl : Except.map (fun l : List PyVal => l.length) (utils.rm_duds zB 8 3) =
      Except.ok 2 := rfl
  have hr : Except.map (fun l : List PyVal => l.length) (despike_spec zB 8 3) =
      Except.ok 3 := by
    unfold despike_spec
    rw [if_neg (by push_neg; norm_num)]
    rfl
  rw [hl, hr] at h2
  exact absurd (Except.ok.inj h2) (by decide)

/-! Inversion lemmas for the checked numpy operations. -/

theorem mul2d_ok_inv {α : Type} [Mul α] (a b c : Mat α) (h : mul2d a b = .ok c) :
    shape a = shape b ∧ c = zip2d (· * ·) a b := by
  unfold mul2d at h
  by_cases hs : shape a = shape b
  · rw [if_pos hs] at h
    exact ⟨hs, (Except.ok.inj h).symm⟩
  · rw [if_neg hs] at h
    cases h

theorem mul2d_error_inv {α : Type} [Mul α] (a b : Mat α) (e : Err)
    (h : mul2d a b = .error e) : e = .valueError broadcastMsg := by
  unfold mul2d at h
  by_cases hs : shape a = shape b
  · rw [if_pos hs] at h
    cases h
  · rw [if_neg hs] at h
    exact (Except.error.inj h).symm

theorem bool_mask_assign_error_inv (base : Mat ℝ) (cond : Mat Bool) (e : Err)
    (h : bool_mask_assign base cond = .error e) : e = .booleanIndexMismatch := by
  unfold bool_mask_assign at h
  by_cases hs : shape base = shape cond
  · rw [if_pos hs] at h
    cases h
  · rw [if_neg hs] at h
    exact (Except.error.inj h).symm

theorem shape_toC (a : Mat ℝ) : shape (toC a) = shape a := shape_map2d _ a

/-- CLAIM C5: in every reconstruction that reconstruct_holo completes, the
three combined masks — the circular aperture `c_mask`, the Fresnel-exclusion
mask `f_mask` and the apodisation window `w_two` — all have exactly the shape
of the extracted sideband ROI. -/
theorem claim_C5 (holo : Mat ℝ) (s : ℤ) (p : ℤ × ℤ) (fro : Option ℝ) (fwo : Option ℤ)
    (hok : (holography.reconstruct_holo holo s p fro fwo).isOk = true) :
    ∃ cm,
      holography.c_mask_of (holography.sb_roi_of holo p s).length
          (ncols (holography.sb_roi_of holo p s))
          (min ((holography.sb_roi_of holo p s).length / 2)
            (ncols (holography.sb_roi_of holo p s) / 2)) = .ok cm ∧
      shape cm = shape (holography.sb_roi_of holo p s) ∧
      shape (holography.f_mask_of holo.length (ncols holo) p
          (min ((holography.sb_roi_of holo p s).length / 2)
            (ncols (holography.sb_roi_of holo p s) / 2))
          (holography.fr_default fro) (holography.fw_default fwo)
          ((((holography.sb_roi_of holo p s).length / 2 : ℕ) : ℤ),
           ((ncols (holography.sb_roi_of holo p s) / 2 : ℕ) : ℤ))
          ((holography.sb_roi_of holo p s).length, ncols (holography.sb_roi_of holo p s)))
        = shape (holography.sb_roi_of holo p s) ∧
      shape (holography.w_two_of s) = shape (holography.sb_roi_of holo p s) := by
  simp only [holography.reconstruct_holo] at hok
  cases hcm : holography.c_mask_of (holography.sb_roi_of holo p s).length
      (ncols (holography.sb_roi_of holo p s))
      (min ((holography.sb_roi_of holo p s).length / 2)
        (ncols (holography.sb_roi_of holo p s) / 2)) with
  | error e =>
    rw [hcm] at hok
    simp [Except.isOk, Except.toBool, error_bind, ok_bind] at hok
  | ok cm =>
    rw [hcm, ok_bind] at hok
    cases hm1 : mul2d (holography.sb_roi_of holo p s) (toC cm) with
    | error e =>
      rw [hm1] at hok
      simp [Except.isOk, Except.toBool, error_bind, ok_bind] at hok
    | ok m1 =>
      rw [hm1, ok_bind] at hok
      cases hm2 : mul2d m1 (toC (map2d (fun b => if b then (0 : ℝ) else 1)
          (holography.f_mask_of holo.length (ncols holo) p
            (min ((holography.sb_roi_of holo p s).length / 2)
              (ncols (holography.sb_roi_of holo p s) / 2))
            (holography.fr_default fro) (holography.fw_default fwo)
            ((((holography.sb_roi_of holo p s).length / 2 : ℕ) : ℤ),
             ((ncols (holography.sb_roi_of holo p s) / 2 : ℕ) : ℤ))
            ((holography.sb_roi_of holo p s).length,
             ncols (holography.sb_roi_of holo p s))))) with
      | error e =>
        rw [hm2] at hok
        simp [Except.isOk, Except.toBool, error_bind, ok_bind] at hok
      | ok m2 =>
        rw [hm2, ok_bind] at hok
        cases hm3 : mul2d m2 (toC (holography.w_two_of s)) with
        | error e =>
          rw [hm3] at hok
          simp [Except.isOk, Except.toBool, error_bind, ok_bind] at hok
        | ok m3 =>
          obtain ⟨hs1, he1⟩ := mul2d_ok_inv _ _ _ hm1
          obtain ⟨hs2, he2⟩ := mul2d_ok_inv _ _ _ hm2
          obtain ⟨hs3, he3⟩ := mul2d_ok_inv _ _ _ hm3
          have hcmsh : shape cm = shape (holography.sb_roi_of holo p s) := by
            rw [hs1, shape_toC]
          have hm1sh : shape m1 = shape (holography.sb_roi_of holo p s) := by
            rw [he1, shape_zip2d_eq _ _ _ hs1]
          have hfm : shape (holography.f_mask_of holo.length (ncols holo) p
              (min ((holography.sb_roi_of holo p s).length / 2)
                (ncols (holography.sb_roi_of holo p s) / 2))
              (holography.fr_default fro) (holography.fw_default fwo)
              ((((holography.sb_roi_of holo p s).length / 2 : ℕ) : ℤ),
               ((ncols (holography.sb_roi_of holo p s) / 2 : ℕ) : ℤ))
              ((holography.sb_roi_of holo p s).length,
               ncols (holography.sb_roi_of holo p s)))
              = shape (holography.sb_roi_of holo p s) := by
            rw [← hm1sh, hs2, shape_toC, shape_map2d]
          have hm2sh : shape m2 = shape (holography.sb_roi_of holo p s) := by
            rw [he2, shape_zip2d_eq _ _ _ hs2, hm1sh]
          have hwt : shape (holography.w_two_of s) =
              shape (holography.sb_roi_of holo p s) := by
            rw [← hm2sh, hs3, shape_toC]
          exact ⟨cm, rfl, hcmsh, hfm, hwt⟩

/-- CLAIM C5 (witness): reconstruct_holo completes on a concrete 2x2 image
with an in-bounds size-2 sideband, and the theorem's shape equalities hold
there. -/
theorem claim_C5_witness :
    ∃ cm,
      holography.c_mask_of (holography.sb_roi_of h2 (1, 1) 2).length
          (ncols (holography.sb_roi_of h2 (1, 1) 2))
          (min ((holography.sb_roi_of h2 (1, 1) 2).length / 2)
            (ncols (holography.sb_roi_of h2 (1, 1) 2) / 2)) = .ok cm ∧
      shape cm = shape (holography.sb_roi_of h2 (1, 1) 2) ∧
      shape (holography.f_mask_of h2.length (ncols h2) (1, 1)
          (min ((holography.sb_roi_of h2 (1, 1) 2).length / 2)
            (ncols (holography.sb_roi_of h2 (1, 1) 2) / 2))
          (holography.fr_default none) (holography.fw_default none)
          ((((holography.sb_roi_of h2 (1, 1) 2).length / 2 : ℕ) : ℤ),
           ((ncols (holography.sb_roi_of h2 (1, 1) 2) / 2 : ℕ) : ℤ))
          ((holography.sb_roi_of h2 (1, 1) 2).length,
           ncols (holography.sb_roi_of h2 (1, 1) 2)))
        = shape (holography.sb_roi_of h2 (1, 1) 2) ∧
      shape (holography.w_two_of 2) = shape (holography.sb_roi_of h2 (1, 1) 2) :=
  claim_C5 h2 2 (1, 1) none none rfl

/-! Python slice characterisation. -/

theorem pyBound_le (n : ℕ) (i : ℤ) : pyBound n i ≤ n := by
  unfold pyBound
  split
  · omega
  · exact min_le_right _ _

theorem pySlice_length {α : Type} (xs : List α) (lo hi : ℤ) :
    (pySlice xs lo hi).length = pyLen xs.length lo hi := by
  unfold pySlice pyLen
  rw [List.length_take, List.length_drop]
  have h1 := pyBound_le xs.length lo
  have h2 := pyBound_le xs.length hi
  omega

theorem pySlice_get? {α : Type} (xs : List α) (lo hi : ℤ) (i : ℕ) :
    (pySlice xs lo hi).get? i =
      if i < pyLen xs.length lo hi then xs.get? (pyBound xs.length lo + i) else none := by
  unfold pySlice pyLen
  rw [List.get?_eq_getElem?, List.getElem?_take, List.getElem?_drop]
  rw [List.get?_eq_getElem?]

theorem mem_np_roll_rows {α : Type} (k : ℤ) (a : Mat α) (r : List α)
    (hr : r ∈ np_roll_rows k a) : r ∈ a := by
  simp only [np_roll_rows, List.mem_map, List.mem_range] at hr
  obtain ⟨i, hi, rfl⟩ := hr
  have hpos : 0 < a.length := by omega
  have hne : (a.length : ℤ) ≠ 0 := by exact_mod_cast hpos.ne'
  have h0 : 0 ≤ ((i : ℤ) - k).emod a.length := Int.emod_nonneg _ hne
  have h1 : ((i : ℤ) - k).emod a.length < a.length :=
    Int.emod_lt_of_pos _ (by exact_mod_cast hpos)
  have h2 : (((i : ℤ) - k).emod a.length).toNat < a.length := by omega
  rw [List.getD_eq_getElem _ _ h2]
  exact List.getElem_mem h2

theorem length_np_roll {α : Type} [Inhabited α] (k : ℤ) (xs : List α) :
    (np_roll k xs).length = xs.length := by
  simp [np_roll]

theorem length_fftshift {α : Type} [Inhabited α] (a : Mat α) :
    (fftshift a).length = a.length := by
  simp [fftshift, np_roll_cols, np_roll_rows]

theorem row_len_fftshift {α : Type} [Inhabited α] (a : Mat α) (c : ℕ)
    (h : ∀ r ∈ a, r.length = c) : ∀ r ∈ fftshift a, r.length = c := by
  intro r hr
  unfold fftshift np_roll_cols at hr
  rw [List.mem_map] at hr
  obtain ⟨r2, hr2, rfl⟩ := hr
  rw [length_np_roll]
  exact h r2 (mem_np_roll_rows _ _ _ hr2)

theorem length_fft2 (a : Mat ℂ) : (fft2 a).length = a.length := by
  simp [fft2]

theorem row_len_fft2 (a : Mat ℂ) : ∀ r ∈ fft2 a, r.length = ncols a := by
  intro r hr
  simp only [fft2, List.mem_map, List.mem_range] at hr
  obtain ⟨k, hk, rfl⟩ := hr
  simp

theorem length_toC (a : Mat ℝ) : (toC a).length = a.length := by
  simp [toC, map2d]

theorem ncols_toC (a : Mat ℝ) : ncols (toC a) = ncols a := by
  cases a with
  | nil => rfl
  | cons x t => simp [toC, map2d, ncols]

/-- The shifted transform of a hologram has the hologram's number of rows. -/
theorem ehfft_length (holo : Mat ℝ) :
    (fftshift (fft2 (toC holo))).length = holo.length := by
  rw [length_fftshift, length_fft2, length_toC]

/-- Every row of the shifted transform has the hologram's number of columns. -/
theorem ehfft_row_len (holo : Mat ℝ) :
    ∀ r ∈ fftshift (fft2 (toC holo)), r.length = ncols holo := by
  have h := row_len_fft2 (toC holo)
  rw [ncols_toC] at h
  exact row_len_fftshift _ _ h

/-- Entrywise characterisation of a 2D Python slice on an array whose rows
all have length `c`. -/
theorem entry2q_slice2d {α : Type} (a : Mat α) (c : ℕ) (hc : ∀ r ∈ a, r.length = c)
    (ylo yhi xlo xhi : ℤ) (j i : ℕ) :
    entry2q (slice2d a ylo yhi xlo xhi) j i =
      if j < pyLen a.length ylo yhi ∧ i < pyLen c xlo xhi then
        entry2q a (pyBound a.length ylo + j) (pyBound c xlo + i)
      else none := by
  unfold entry2q slice2d
  rw [List.get?_map, pySlice_get?]
  by_cases hj : j < pyLen a.length ylo yhi
  · rw [if_pos hj]
    have hcase : pyBound a.length ylo + j < a.length := by
      have h1 := pyBound_le a.length yhi
      unfold pyLen at hj
      omega
    rw [List.get?_eq_getElem?, List.getElem?_eq_getElem hcase]
    have hrow : (a[pyBound a.length ylo + j]).length = c :=
      hc _ (List.getElem_mem hcase)
    simp only [Option.map_some', Option.some_bind]
    rw [pySlice_get?, hrow]
    by_cases hi : i < pyLen c xlo xhi
    · rw [if_pos hi, if_pos ⟨hj, hi⟩]
    · rw [if_neg hi, if_neg (by tauto)]
  · rw [if_neg hj, if_neg (by tauto)]
    simp

theorem bind_error_source {ε α β : Type} (x : Except ε α) (f : α → Except ε β) (e : ε)
    (h : x >>= f = .error e) : x = .error e ∨ ∃ a, x = .ok a ∧ f a = .error e := by
  cases x with
  | error e2 =>
    left
    rw [error_bind] at h
    rw [Except.error.inj h]
  | ok a =>
    right
    exact ⟨a, rfl, h⟩

theorem c_mask_of_error_inv (ny nx l : ℕ) (e : Err)
    (h : holography.c_mask_of ny nx l = .error e) : e = .booleanIndexMismatch := by
  simp only [holography.c_mask_of] at h
  exact bool_mask_assign_error_inv _ _ _ h

/-- reconstruct_holo performs no explicit bounds check: no execution path can
produce the spec's BoundsError (the only failures are numpy shape-mismatch
errors downstream of the silent slice clipping). -/
theorem reconstruct_holo_no_bounds (holo : Mat ℝ) (s : ℤ) (p : ℤ × ℤ)
    (fro : Option ℝ) (fwo : Option ℤ) :
    holography.reconstruct_holo holo s p fro fwo ≠ .error .boundsError := by
  intro hbound
  simp only [holography.reconstruct_holo] at hbound
  rcases bind_error_source _ _ _ hbound with h | ⟨cm, _, h⟩
  · have := c_mask_of_error_inv _ _ _ _ h
    cases this
  · rcases bind_error_source _ _ _ h with h2 | ⟨m1, _, h2⟩
    · have := mul2d_error_inv _ _ _ h2
      cases this
    · rcases bind_error_source _ _ _ h2 with h3 | ⟨m2, _, h3⟩
      · have := mul2d_error_inv _ _ _ h3
        cases this
      · rcases bind_error_source _ _ _ h3 with h4 | ⟨m3, _, h4⟩
        · have := mul2d_error_inv _ _ _ h4
          cases this
        · cases h4

/-- CLAIM C1 (amended): reconstruct_holo never fails with BoundsError — the
source performs no bounds check at all.  The ROI is cut out with Python slice
semantics: entry `(j, i)` of the ROI is entry
`(clippedStart + j, clippedStart' + i)` of the shifted transform inside the
clipped windows, whose lengths are the Python slice lengths (so an
out-of-bounds request silently yields a clipped — possibly empty or, for
sufficiently negative indices, wrapped-around — ROI instead of an error);
only when the requested square lies fully inside the transform is the ROI the
full `size × size` block.  Any failure caused by a short ROI surfaces later
as a numpy shape-mismatch ValueError in the mask arithmetic. -/
theorem claim_C1_amended (holo : Mat ℝ) (p : ℤ × ℤ) (s : ℤ) (fro : Option ℝ)
    (fwo : Option ℤ) (hs : 0 < s) (he : s % 2 = 0) :
    holography.reconstruct_holo holo s p fro fwo ≠ .error .boundsError ∧
    (∀ j i, entry2q (holography.sb_roi_of holo p s) j i =
      if j < pyLen holo.length (p.1 - pydiv s 2) (p.1 + pydiv s 2) ∧
          i < pyLen (ncols holo) (p.2 - pydiv s 2) (p.2 + pydiv s 2) then
        entry2q (fftshift (fft2 (toC holo)))
          (pyBound holo.length (p.1 - pydiv s 2) + j)
          (pyBound (ncols holo) (p.2 - pydiv s 2) + i)
      else none) ∧
    (roiInBounds holo.length (ncols holo) p s →
      shape (holography.sb_roi_of holo p s) = (s.toNat, s.toNat)) := by
  refine ⟨reconstruct_holo_no_bounds holo s p fro fwo, ?_, ?_⟩
  · intro j i
    unfold holography.sb_roi_of
    rw [entry2q_slice2d _ (ncols holo) (ehfft_row_len holo) _ _ _ _ j i,
      ehfft_length]
  · intro hin
    obtain ⟨h1, h2, h3, h4⟩ := hin
    have hdiv : 2 * pydiv s 2 = s := by
      unfold pydiv
      rw [Int.fdiv_eq_ediv _ (by norm_num)]
      omega
    have hrows : (holography.sb_roi_of holo p s).length = s.toNat := by
      unfold holography.sb_roi_of slice2d
      rw [List.length_map, pySlice_length, ehfft_length]
      unfold pyLen pyBound
      rw [if_neg (by omega), if_neg (by omega)]
      omega
    have hpos : 0 < (holography.sb_roi_of holo p s).length := by omega
    obtain ⟨r0, hr0⟩ : ∃ r0, (holography.sb_roi_of holo p s).get? 0 = some r0 := by
      rw [List.get?_eq_getElem?, List.getElem?_eq_getElem hpos]
      exact ⟨_, rfl⟩
    have hr0len : r0.length = s.toNat := by
      unfold holography.sb_roi_of slice2d at hr0
      rw [List.get?_map, pySlice_get?, ehfft_length] at hr0
      rw [if_pos (by
        unfold pyLen pyBound
        rw [if_neg (by omega), if_neg (by omega)]
        omega)] at hr0
      set idx := pyBound holo.length (p.1 - pydiv s 2) + 0 with hidx
      have hidxlt : idx < holo.length := by
        unfold pyBound at hidx
        rw [if_neg (by omega)] at hidx
        omega
      have hidxlt2 : idx < (fftshift (fft2 (toC holo))).length := by
        rw [ehfft_length]
        exact hidxlt
      rw [List.get?_eq_getElem?, List.getElem?_eq_getElem hidxlt2] at hr0
      have hr0eq2 : r0 = pySlice ((fftshift (fft2 (toC holo)))[idx])
          (p.2 - pydiv s 2) (p.2 + pydiv s 2) := (Option.some.inj hr0).symm
      rw [hr0eq2, pySlice_length,
        ehfft_row_len holo _ (List.getElem_mem hidxlt2)]
      unfold pyLen pyBound
      rw [if_neg (by omega), if_neg (by omega)]
      omega
    have hhead : (holography.sb_roi_of holo p s).headD [] = r0 := by
      cases hsb : holography.sb_roi_of holo p s with
      | nil => rw [hsb] at hpos; simp at hpos
      | cons x t =>
        rw [hsb] at hr0
        simp at hr0
        simp [hr0]
    unfold shape
    rw [hrows, hhead, hr0len]

/-- CLAIM C1 (counterexample): the claim demands BoundsError whenever the ROI
is not fully inside the transform.  Concretely, on a 4x4 hologram with
sideband centre (0,0) and size 4, the ROI is out of bounds, yet
reconstruct_holo does not raise BoundsError: the ROI silently clips to an
empty 0x0 array and the failure appears only later as a numpy broadcast
(shape-mismatch) ValueError when the sinc window is applied. -/
theorem claim_C1_counterexample :
    ¬ roiInBounds h4.length (ncols h4) (0, 0) 4 ∧
    holography.reconstruct_holo h4 4 (0, 0) none none =
      .error (.valueError broadcastMsg) ∧
    holography.reconstruct_holo h4 4 (0, 0) none none ≠ .error .boundsError ∧
    shape (holography.sb_roi_of h4 (0, 0) 4) = (0, 0) := by
  refine ⟨?_, rfl, ?_, rfl⟩
  · unfold roiInBounds pydiv
    decide
  · intro h
    exact absurd (Except.error.inj h) (by decide)

/-- CLAIM C1 (witness): the amended theorem instantiated at the 4x4 zero
hologram with centre (0,0) and size 4. -/
theorem claim_C1_witness :
    holography.reconstruct_holo h4 4 (0, 0) none none ≠ .error .boundsError ∧
    (∀ j i, entry2q (holography.sb_roi_of h4 (0, 0) 4) j i =
      if j < pyLen h4.length ((0 : ℤ) - pydiv 4 2) ((0 : ℤ) + pydiv 4 2) ∧
          i < pyLen (ncols h4) ((0 : ℤ) - pydiv 4 2) ((0 : ℤ) + pydiv 4 2) then
        entry2q (fftshift (fft2 (toC h4)))
          (pyBound h4.length ((0 : ℤ) - pydiv 4 2) + j)
          (pyBound (ncols h4) ((0 : ℤ) - pydiv 4 2) + i)
      else none) ∧
    (roiInBounds h4.length (ncols h4) (0, 0) 4 →
      shape (holography.sb_roi_of h4 (0, 0) 4) = ((4 : ℤ).toNat, (4 : ℤ).toNat)) :=
  claim_C1_amended h4 (0, 0) 4 none none (by norm_num) (by decide)

/-! Characterisation of numpy argmax. -/

theorem argmaxAux_spec {α β : Type} [LinearOrder β] (key : α → β) :
    ∀ (xs : List α) (bi i : ℕ) (bv : α), bi < i →
      ((argmaxAux key xs bi bv i).1 = bi ∧ (argmaxAux key xs bi bv i).2 = bv ∨
        ∃ k, ∃ h : k < xs.length, (argmaxAux key xs bi bv i).1 = i + k ∧
          (argmaxAux key xs bi bv i).2 = xs.get ⟨k, h⟩ ∧
          key bv < key (argmaxAux key xs bi bv i).2) ∧
      key bv ≤ key (argmaxAux key xs bi bv i).2 ∧
      (∀ k (h : k < xs.length), key (xs.get ⟨k, h⟩) ≤ key (argmaxAux key xs bi bv i).2) ∧
      (∀ k (h : k < xs.length), i + k < (argmaxAux key xs bi bv i).1 →
        key (xs.get ⟨k, h⟩) < key (argmaxAux key xs bi bv i).2) := by
  intro xs
  induction xs with
  | nil =>
    intro bi i bv hbi
    refine ⟨Or.inl ⟨rfl, rfl⟩, le_refl _, ?_, ?_⟩
    · intro k h
      exact absurd h (Nat.not_lt_zero k)
    · intro k h
      exact absurd h (Nat.not_lt_zero k)
  | cons x rest ih =>
    intro bi i bv hbi
    by_cases hc : key bv < key x
    · have hred : argmaxAux key (x :: rest) bi bv i = argmaxAux key rest i x (i + 1) := by
        simp only [argmaxAux, if_pos hc]
      obtain ⟨ha, hb, hm, hf⟩ := ih i (i + 1) x (by omega)
      rw [hred]
      refine ⟨?_, le_of_lt (lt_of_lt_of_le hc hb), ?_, ?_⟩
      · rcases ha with ⟨h1, h2⟩ | ⟨k, hk, h1, h2, h3⟩
        · right
          refine ⟨0, by simp, by rw [h1]; omega, by rw [h2]; rfl, by rw [h2]; exact hc⟩
        · right
          refine ⟨k + 1, by simp; omega, by rw [h1]; omega, by rw [h2]; rfl,
            lt_of_lt_of_le hc hb⟩
      · intro k h
        cases k with
        | zero => exact hb
        | succ k2 => exact hm k2 (by simp at h; omega)
      · intro k h hlt
        cases k with
        | zero =>
          rcases ha with ⟨h1, _⟩ | ⟨k2, hk2, h1, _, h3⟩
          · rw [h1] at hlt
            omega
          · exact h3
        | succ k2 => exact hf k2 (by simp at h; omega) (by omega)
    · have hc2 : key x ≤ key bv := le_of_not_lt hc
      have hred : argmaxAux key (x :: rest) bi bv i = argmaxAux key rest bi bv (i + 1) := by
        simp only [argmaxAux, if_neg hc]
      obtain ⟨ha, hb, hm, hf⟩ := ih bi (i + 1) bv (by omega)
      rw [hred]
      refine ⟨?_, hb, ?_, ?_⟩
      · rcases ha with h | ⟨k, hk, h1, h2, h3⟩
        · left
          exact h
        · right
          refine ⟨k + 1, by simp; omega, by rw [h1]; omega, by rw [h2]; rfl, h3⟩
      · intro k h
        cases k with
        | zero => exact le_trans hc2 hb
        | succ k2 => exact hm k2 (by simp at h; omega)
      · intro k h hlt
        cases k with
        | zero =>
          rcases ha with ⟨h1, _⟩ | ⟨k2, hk2, h1, h2, h3⟩
          · rw [h1] at hlt
            omega
          · exact lt_of_le_of_lt hc2 h3
        | succ k2 => exact hf k2 (by simp at h; omega) (by omega)

/-- What a non-empty numpy argmax returns: the value at the returned flat
index, which attains the maximum key, every position attaining it strictly
earlier being impossible (first occurrence). -/
theorem np_argmax_spec {α β : Type} [LinearOrder β] (key : α → β) (xs : List α)
    (hx : xs ≠ []) :
    ∃ idx v, np_argmax key xs = some (idx, v) ∧ ∃ h : idx < xs.length,
      xs.get ⟨idx, h⟩ = v ∧
      (∀ j (hj : j < xs.length), key (xs.get ⟨j, hj⟩) ≤ key v) ∧
      (∀ j (hj : j < xs.length), j < idx → key (xs.get ⟨j, hj⟩) < key v) := by
  cases xs with
  | nil => exact absurd rfl hx
  | cons x rest =>
    obtain ⟨ha, hb, hm, hf⟩ := argmaxAux_spec key rest 0 1 x (by omega)
    refine ⟨(argmaxAux key rest 0 x 1).1, (argmaxAux key rest 0 x 1).2,
      by simp [np_argmax], ?_, ?_, ?_, ?_⟩
    · rcases ha with ⟨h1, _⟩ | ⟨k, hk, h1, _, _⟩
      · rw [h1]
        simp
      · rw [h1]
        simp
        omega
    · rcases ha with ⟨h1, h2⟩ | ⟨k, hk, h1, h2, _⟩
      · simp only [h1]
        exact h2.symm
      · have hadd : 1 + k = k + 1 := by omega
        simp only [h1, hadd]
        exact h2.symm
    · intro j hj
      cases j with
      | zero => exact hb
      | succ k2 => exact hm k2 (by simp at hj; omega)
    · intro j hj hlt
      cases j with
      | zero =>
        rcases ha with ⟨h1, _⟩ | ⟨k2, hk2, h1, _, h3⟩
        · rw [h1] at hlt
          omega
        · exact h3
      | succ k2 => exact hf k2 (by simp at hj; omega) (by omega)

theorem div_scalar_one (a : Mat ℂ) : holography.div_scalar a 1 = a := by
  unfold holography.div_scalar map2d
  simp

theorem map_error {ε α β : Type} (f : α → β) (e : ε) :
    Except.map f (Except.error e : Except ε α) = Except.error e := rfl

theorem map_ok {ε α β : Type} (f : α → β) (a : α) :
    Except.map f (Except.ok a : Except ε α) = Except.ok (f a) := rfl

/-- CLAIM C2: for every object hologram and every given rec_param whose
rectangle is non-empty (numpy argmax raises on an empty slice), reconstruct
with `ref_data = None` returns a wave exactly equal — as the identical
mathematical object, not merely within tolerance — to the object wave
produced by reconstruct_holo at the resolved centre and the rec_param's
size, because the reference wave is the scalar 1 and `w_obj / 1 = w_obj`
exactly. -/
theorem claim_C2 (holo : Mat ℝ) (rp : holography.RecParam)
    (hne : (slice2d (fftshift (fft2 (toC holo))) rp.y0 rp.y1 rp.x0 rp.x1).flatten ≠ []) :
    Except.map holography.RecResult.wave (holography.reconstruct holo none rp) =
      holography.reconstruct_holo holo rp.size
        (holography.resolve_sideband (fftshift (fft2 (toC holo))) rp) none none := by
  obtain ⟨idx, v, hidx, -⟩ := np_argmax_spec ckey _ hne
  simp only [holography.reconstruct, holography.resolve_sideband]
  rw [hidx]
  cases hrec : holography.reconstruct_holo holo rp.size
      (rp.y0 + ((idx / ncols (slice2d (fftshift (fft2 (toC holo))) rp.y0 rp.y1 rp.x0 rp.x1) : ℕ) : ℤ),
       rp.x0 + ((idx % ncols (slice2d (fftshift (fft2 (toC holo))) rp.y0 rp.y1 rp.x0 rp.x1) : ℕ) : ℤ))
      none none with
  | error e => simp only [hrec, error_bind, map_error]
  | ok w => simp only [hrec, ok_bind, map_ok, div_scalar_one]

/-- CLAIM C2 (witness): the theorem instantiated at the concrete 2x2
hologram holoA with the full-frame rec_param rpA. -/
theorem claim_C2_witness :
    Except.map holography.RecResult.wave (holography.reconstruct holoA none rpA) =
      holography.reconstruct_holo holoA rpA.size
        (holography.resolve_sideband (fftshift (fft2 (toC holoA))) rpA) none none :=
  claim_C2 holoA rpA (by
    intro h
    have h4 : (slice2d (fftshift (fft2 (toC holoA))) rpA.y0 rpA.y1 rpA.x0
        rpA.x1).flatten.length = 4 := rfl
    rw [h] at h4
    simp at h4)

/-- CLAIM C4 (amended): with a given rec_param, reconstruct resolves the
sideband centre as the rectangle's origin plus the unravelled position of
the FIRST maximum of the transformed hologram inside the rectangle under
numpy's ordering of complex values — lexicographic by real part then
imaginary part (`ckey`), NOT by magnitude — and reuses the rec_param
(including its size, passed verbatim to reconstruct_holo) unchanged in the
returned tuple. -/
theorem claim_C4_amended (holo : Mat ℝ) (rp : holography.RecParam)
    (hne : (slice2d (fftshift (fft2 (toC holo))) rp.y0 rp.y1 rp.x0 rp.x1).flatten ≠ []) :
    ∃ idx v,
      np_argmax ckey
        (slice2d (fftshift (fft2 (toC holo))) rp.y0 rp.y1 rp.x0 rp.x1).flatten =
          some (idx, v) ∧
      (∃ h : idx < (slice2d (fftshift (fft2 (toC holo))) rp.y0 rp.y1 rp.x0
          rp.x1).flatten.length,
        (slice2d (fftshift (fft2 (toC holo))) rp.y0 rp.y1 rp.x0
            rp.x1).flatten.get ⟨idx, h⟩ = v ∧
        (∀ j (hj : j < (slice2d (fftshift (fft2 (toC holo))) rp.y0 rp.y1 rp.x0
            rp.x1).flatten.length),
          ckey ((slice2d (fftshift (fft2 (toC holo))) rp.y0 rp.y1 rp.x0
            rp.x1).flatten.get ⟨j, hj⟩) ≤ ckey v) ∧
        (∀ j (hj : j < (slice2d (fftshift (fft2 (toC holo))) rp.y0 rp.y1 rp.x0
            rp.x1).flatten.length), j < idx →
          ckey ((slice2d (fftshift (fft2 (toC holo))) rp.y0 rp.y1 rp.x0
            rp.x1).flatten.get ⟨j, hj⟩) < ckey v)) ∧
      holography.resolve_sideband (fftshift (fft2 (toC holo))) rp =
        (rp.y0 + ((idx / ncols (slice2d (fftshift (fft2 (toC holo))) rp.y0 rp.y1
          rp.x0 rp.x1) : ℕ) : ℤ),
         rp.x0 + ((idx % ncols (slice2d (fftshift (fft2 (toC holo))) rp.y0 rp.y1
          rp.x0 rp.x1) : ℕ) : ℤ)) ∧
      (∀ ref res, holography.reconstruct holo ref rp = .ok res →
        res.rec_param = rp) := by
  obtain ⟨idx, v, hidx, hspec⟩ := np_argmax_spec ckey _ hne
  refine ⟨idx, v, hidx, hspec, ?_, ?_⟩
  · simp only [holography.resolve_sideband]
    rw [hidx]
  · intro ref res h
    simp only [holography.reconstruct] at h
    simp only [hidx] at h
    cases ref with
    | none =>
      cases hrec : holography.reconstruct_holo holo rp.size
          (rp.y0 + ((idx / ncols (slice2d (fftshift (fft2 (toC holo))) rp.y0 rp.y1
            rp.x0 rp.x1) : ℕ) : ℤ),
           rp.x0 + ((idx % ncols (slice2d (fftshift (fft2 (toC holo))) rp.y0 rp.y1
            rp.x0 rp.x1) : ℕ) : ℤ)) none none with
      | error e =>
        rw [hrec] at h
        simp [error_bind] at h
      | ok w =>
        rw [hrec, ok_bind] at h
        have := Except.ok.inj h
        rw [← this]
    | some rd =>
      simp only [] at h
      cases hrec1 : holography.reconstruct_holo rd rp.size
          (rp.y0 + ((idx / ncols (slice2d (fftshift (fft2 (toC holo))) rp.y0 rp.y1
            rp.x0 rp.x1) : ℕ) : ℤ),
           rp.x0 + ((idx % ncols (slice2d (fftshift (fft2 (toC holo))) rp.y0 rp.y1
            rp.x0 rp.x1) : ℕ) : ℤ)) none none with
      | error e =>
        rw [hrec1] at h
        simp [error_bind] at h
      | ok wr =>
        rw [hrec1, ok_bind] at h
        cases hrec2 : holography.reconstruct_holo holo rp.size
            (rp.y0 + ((idx / ncols (slice2d (fftshift (fft2 (toC holo))) rp.y0 rp.y1
              rp.x0 rp.x1) : ℕ) : ℤ),
             rp.x0 + ((idx % ncols (slice2d (fftshift (fft2 (toC holo))) rp.y0 rp.y1
              rp.x0 rp.x1) : ℕ) : ℤ)) none none with
        | error e =>
          rw [hrec2] at h
          simp [error_bind] at h
        | ok wo =>
          rw [hrec2, ok_bind] at h
          cases hdiv : holography.div2d wo wr with
          | error e =>
            rw [hdiv] at h
            simp [error_bind] at h
          | ok wv =>
            rw [hdiv, ok_bind] at h
            have := Except.ok.inj h
            rw [← this]

/-- CLAIM C4 (witness): the amended theorem instantiated at the concrete 2x2
hologram holoA with the full-frame rec_param rpA. -/
theorem claim_C4_witness :
    ∃ idx v,
      np_argmax ckey
        (slice2d (fftshift (fft2 (toC holoA))) rpA.y0 rpA.y1 rpA.x0 rpA.x1).flatten =
          some (idx, v) ∧
      (∃ h : idx < (slice2d (fftshift (fft2 (toC holoA))) rpA.y0 rpA.y1 rpA.x0
          rpA.x1).flatten.length,
        (slice2d (fftshift (fft2 (toC holoA))) rpA.y0 rpA.y1 rpA.x0
            rpA.x1).flatten.get ⟨idx, h⟩ = v ∧
        (∀ j (hj : j < (slice2d (fftshift (fft2 (toC holoA))) rpA.y0 rpA.y1 rpA.x0
            rpA.x1).flatten.length),
          ckey ((slice2d (fftshift (fft2 (toC holoA))) rpA.y0 rpA.y1 rpA.x0
            rpA.x1).flatten.get ⟨j, hj⟩) ≤ ckey v) ∧
        (∀ j (hj : j < (slice2d (fftshift (fft2 (toC holoA))) rpA.y0 rpA.y1 rpA.x0
            rpA.x1).flatten.length), j < idx →
          ckey ((slice2d (fftshift (fft2 (toC holoA))) rpA.y0 rpA.y1 rpA.x0
            rpA.x1).flatten.get ⟨j, hj⟩) < ckey v)) ∧
      holography.resolve_sideband (fftshift (fft2 (toC holoA))) rpA =
        (rpA.y0 + ((idx / ncols (slice2d (fftshift (fft2 (toC holoA))) rpA.y0 rpA.y1
          rpA.x0 rpA.x1) : ℕ) : ℤ),
         rpA.x0 + ((idx % ncols (slice2d (fftshift (fft2 (toC holoA))) rpA.y0 rpA.y1
          rpA.x0 rpA.x1) : ℕ) : ℤ)) ∧
      (∀ ref res, holography.reconstruct holoA ref rpA = .ok res →
        res.rec_param = rpA) :=
  claim_C4_amended holoA rpA (by
    intro h
    have h4 : (slice2d (fftshift (fft2 (toC holoA))) rpA.y0 rpA.y1 rpA.x0
        rpA.x1).flatten.length = 4 := rfl
    rw [h] at h4
    simp at h4)

/-! Concrete evaluation of the 2x2 DFT of holoA. -/

theorem exp_neg_pi_mul_nat (t : ℕ) :
    Complex.exp (-(Real.pi : ℂ) * Complex.I * t) = (-1) ^ t := by
  induction t with
  | zero => simp
  | succ n ih =>
    have harg : (-(Real.pi : ℂ) * Complex.I * ((n : ℕ) + 1 : ℕ)) =
        -(Real.pi : ℂ) * Complex.I * n + -(Real.pi : ℂ) * Complex.I := by
      push_cast
      ring
    rw [harg, Complex.exp_add, ih]
    have hexp : Complex.exp (-(Real.pi : ℂ) * Complex.I) = -1 := by
      rw [show (-(Real.pi : ℂ) * Complex.I) = -((Real.pi : ℂ) * Complex.I) by ring,
        Complex.exp_neg, Complex.exp_pi_mul_I]
      norm_num
    rw [hexp]
    ring

/-- The 2x2 DFT reduces to signed sums of the four entries. -/
theorem dft_entry_two (a : Mat ℂ) (k l : ℕ) :
    dft_entry a 2 2 k l =
      entry2d a 0 0 0 * 1 + entry2d a 0 1 0 * (-1) ^ l +
      entry2d a 1 0 0 * (-1) ^ k + entry2d a 1 1 0 * (-1) ^ (k + l) := by
  unfold dft_entry
  simp only [Finset.sum_range_succ, Finset.sum_range_zero, zero_add,
    Nat.cast_zero, Nat.cast_one, Nat.cast_ofNat]
  have h00 : (-2 * (Real.pi : ℂ) * Complex.I * ((k : ℂ) * 0 / 2 + (l : ℂ) * 0 / 2)) =
      -(Real.pi : ℂ) * Complex.I * ((0 : ℕ) : ℂ) := by
    push_cast
    ring
  have h01 : (-2 * (Real.pi : ℂ) * Complex.I * ((k : ℂ) * 0 / 2 + (l : ℂ) * 1 / 2)) =
      -(Real.pi : ℂ) * Complex.I * ((l : ℕ) : ℂ) := by
    push_cast
    ring
  have h10 : (-2 * (Real.pi : ℂ) * Complex.I * ((k : ℂ) * 1 / 2 + (l : ℂ) * 0 / 2)) =
      -(Real.pi : ℂ) * Complex.I * ((k : ℕ) : ℂ) := by
    push_cast
    ring
  have h11 : (-2 * (Real.pi : ℂ) * Complex.I * ((k : ℂ) * 1 / 2 + (l : ℂ) * 1 / 2)) =
      -(Real.pi : ℂ) * Complex.I * ((k + l : ℕ) : ℂ) := by
    push_cast
    ring
  rw [h00, h01, h10, h11, exp_neg_pi_mul_nat, exp_neg_pi_mul_nat,
    exp_neg_pi_mul_nat, exp_neg_pi_mul_nat]
  norm_num
  ring

/-- The centred transform of holoA, computed in closed form. -/
theorem fftA : fft2 (toC holoA) = [[(1 : ℂ), -10], [9, 0]] := by
  have hdef : fft2 (toC holoA) =
      [[dft_entry (toC holoA) 2 2 0 0, dft_entry (toC holoA) 2 2 0 1],
       [dft_entry (toC holoA) 2 2 1 0, dft_entry (toC holoA) 2 2 1 1]] := rfl
  rw [hdef, dft_entry_two, dft_entry_two, dft_entry_two, dft_entry_two]
  have hv : ∀ i j : ℕ, entry2d (toC holoA) i j 0 =
      ((entry2d holoA i j 0 : ℝ) : ℂ) := by
    intro i j
    unfold toC entry2d map2d holoA
    match i, j with
    | 0, 0 => norm_num
    | 0, 1 => norm_num
    | 1, 0 => norm_num
    | 1, 1 => norm_num
    | n + 2, _ => norm_num
    | 1, m + 2 => norm_num
    | 0, m + 2 => norm_num
  rw [hv, hv, hv, hv]
  norm_num [entry2d, holoA]

/-- The shifted transform of holoA. -/
theorem shiftA : fftshift (fft2 (toC holoA)) = [[(0 : ℂ), 9], [-10, 1]] := by
  rw [fftA]
  rfl

theorem ckey_lt_iff (u v : ℂ) :
    ckey u < ckey v ↔ u.re < v.re ∨ u.re = v.re ∧ u.im < v.im :=
  Prod.Lex.lt_iff (u.re, u.im) (v.re, v.im)

/-- numpy's complex argmax on the flattened shifted transform of holoA picks
the entry 9 (largest real part), at flat index 1. -/
theorem argmaxA : np_argmax ckey ([(0 : ℂ), 9, -10, 1]) = some (1, (9 : ℂ)) := by
  have c1 : ckey (0 : ℂ) < ckey (9 : ℂ) := by
    rw [ckey_lt_iff]
    norm_num
  have c2 : ¬ ckey (9 : ℂ) < ckey (-10 : ℂ) := by
    rw [ckey_lt_iff]
    norm_num
  have c3 : ¬ ckey (9 : ℂ) < ckey (1 : ℂ) := by
    rw [ckey_lt_iff]
    norm_num
  simp only [np_argmax, argmaxAux, if_pos c1, if_neg c2, if_neg c3]

/-- The magnitude argmax on the same array picks the entry -10 (magnitude
10), at flat index 2. -/
theorem argmaxA_abs :
    np_argmax (fun z => Complex.abs z) ([(0 : ℂ), 9, -10, 1]) = some (2, (-10 : ℂ)) := by
  have c1 : Complex.abs (0 : ℂ) < Complex.abs (9 : ℂ) := by norm_num
  have c2 : Complex.abs (9 : ℂ) < Complex.abs (-10 : ℂ) := by norm_num
  have c3 : ¬ Complex.abs (-10 : ℂ) < Complex.abs (1 : ℂ) := by norm_num
  simp only [np_argmax, argmaxAux, if_pos c1, if_pos c2, if_neg c3]

/-- CLAIM C4 (counterexample): on the concrete hologram holoA, whose shifted
transform is [[0, 9], [-10, 1]], the source resolves the sideband centre to
(0, 1) — the entry 9, maximal under numpy's complex ordering — while the
claim's magnitude maximum sits at (1, 0) (the entry -10, magnitude 10); the
claim's resolution rule disagrees with the code. -/
theorem claim_C4_counterexample :
    holography.resolve_sideband (fftshift (fft2 (toC holoA))) rpA = (0, 1) ∧
    holography.resolve_sideband_spec (fftshift (fft2 (toC holoA))) rpA = (1, 0) ∧
    holography.resolve_sideband (fftshift (fft2 (toC holoA))) rpA ≠
      holography.resolve_sideband_spec (fftshift (fft2 (toC holoA))) rpA := by
  have harect : slice2d ([[(0 : ℂ), 9], [-10, 1]]) rpA.y0 rpA.y1 rpA.x0 rpA.x1 =
      [[(0 : ℂ), 9], [-10, 1]] := rfl
  have hfl : ([[(0 : ℂ), 9], [-10, 1]] : Mat ℂ).flatten = [(0 : ℂ), 9, -10, 1] := rfl
  have h1 : holography.resolve_sideband (fftshift (fft2 (toC holoA))) rpA = (0, 1) := by
    rw [shiftA]
    simp only [holography.resolve_sideband]
    rw [harect, hfl, argmaxA]
    norm_num [ncols, rpA]
  have h2 : holography.resolve_sideband_spec (fftshift (fft2 (toC holoA))) rpA =
      (1, 0) := by
    rw [shiftA]
    simp only [holography.resolve_sideband_spec]
    rw [harect, hfl, argmaxA_abs]
    norm_num [ncols, rpA]
  refine ⟨h1, h2, ?_⟩
  rw [h1, h2]
  decide

/-- `utils.wrap` shifts its argument by an integer multiple of `2π`, so the
sine is unchanged. -/
theorem sin_wrap (x : ℝ) : Real.sin (utils.wrap x) = Real.sin x := by
  have h : utils.wrap x = x + ((-⌊x / (2 * Real.pi)⌋ : ℤ) : ℝ) * (2 * Real.pi) := by
    unfold utils.wrap pymod
    push_cast
    ring
  rw [h, Real.sin_add_int_mul_two_pi]

/-- `utils.wrap` shifts its argument by an integer multiple of `2π`, so the
cosine is unchanged. -/
theorem cos_wrap (x : ℝ) : Real.cos (utils.wrap x) = Real.cos x := by
  have h : utils.wrap x = x + ((-⌊x / (2 * Real.pi)⌋ : ℤ) : ℝ) * (2 * Real.pi) := by
    unfold utils.wrap pymod
    push_cast
    ring
  rw [h, Real.cos_add_int_mul_two_pi]

/-- C6 (amended).  The Fresnel-exclusion quadrilateral of `reconstruct_holo`
has, before rounding, its four corners at radial offsets `fratio * l` and `l`
along the strip direction and at perpendicular offsets `-r` and `r` — but the
strip direction is `fresnel_ang`, the angle of the vector FROM the sideband
position TO the hologram's centre (`arctan2(sx/2 - sb_pos.1, sy/2 - sb_pos.2)`),
not the claim's angle from the hologram's centre to the sideband.  In the
`(y, x)` coordinates of the corners, the radial unit vector of direction
`ang` is `(sin ang, cos ang)`, so the two stated projections determine each
corner completely. -/
theorem claim_C6_amended (sx sy : ℕ) (p : ℤ × ℤ) (l fratio r : ℝ) :
    ∀ q ∈ holography.fresnel_corners_ideal (holography.fresnel_ang sx sy p) l fratio r,
      (q.1 * Real.sin (holography.fresnel_ang sx sy p) +
          q.2 * Real.cos (holography.fresnel_ang sx sy p) = fratio * l ∨
        q.1 * Real.sin (holography.fresnel_ang sx sy p) +
          q.2 * Real.cos (holography.fresnel_ang sx sy p) = l) ∧
      (q.1 * Real.cos (holography.fresnel_ang sx sy p) -
          q.2 * Real.sin (holography.fresnel_ang sx sy p) = -r ∨
        q.1 * Real.cos (holography.fresnel_ang sx sy p) -
          q.2 * Real.sin (holography.fresnel_ang sx sy p) = r) := by
  intro q hq
  set ang := holography.fresnel_ang sx sy p with hang
  have hs : Real.sin ang ^ 2 + Real.cos ang ^ 2 = 1 := Real.sin_sq_add_cos_sq ang
  simp only [holography.fresnel_corners_ideal, List.mem_cons, List.not_mem_nil,
    or_false] at hq
  rcases hq with rfl | rfl | rfl | rfl
  · refine ⟨Or.inl ?_, Or.inl ?_⟩
    · simp only [sin_wrap, cos_wrap, Real.sin_sub_pi_div_two, Real.cos_sub_pi_div_two]
      linear_combination fratio * l * hs
    · simp only [sin_wrap, cos_wrap, Real.sin_sub_pi_div_two, Real.cos_sub_pi_div_two]
      linear_combination (-r) * hs
  · refine ⟨Or.inl ?_, Or.inr ?_⟩
    · simp only [sin_wrap, cos_wrap, Real.sin_add_pi_div_two, Real.cos_add_pi_div_two]
      linear_combination fratio * l * hs
    · simp only [sin_wrap, cos_wrap, Real.sin_add_pi_div_two, Real.cos_add_pi_div_two]
      linear_combination r * hs
  · refine ⟨Or.inr ?_, Or.inr ?_⟩
    · simp only [sin_wrap, cos_wrap, Real.sin_add_pi_div_two, Real.cos_add_pi_div_two]
      linear_combination l * hs
    · simp only [sin_wrap, cos_wrap, Real.sin_add_pi_div_two, Real.cos_add_pi_div_two]
      linear_combination r * hs
  · refine ⟨Or.inr ?_, Or.inl ?_⟩
    · simp only [sin_wrap, cos_wrap, Real.sin_sub_pi_div_two, Real.cos_sub_pi_div_two]
      linear_combination l * hs
    · simp only [sin_wrap, cos_wrap, Real.sin_sub_pi_div_two, Real.cos_sub_pi_div_two]
      linear_combination (-r) * hs

/-- C6 witness: the amended theorem applied to the first corner of the
quadrilateral for a 4×4 hologram with sideband at the origin and
`l = fratio = r = 1`. -/
theorem claim_C6_witness :
    (((holography.fresnel_corners_ideal (holography.fresnel_ang 4 4 (0, 0)) 1 1 1).headD
            (0, 0)).1 * Real.sin (holography.fresnel_ang 4 4 (0, 0)) +
        ((holography.fresnel_corners_ideal (holography.fresnel_ang 4 4 (0, 0)) 1 1 1).headD
            (0, 0)).2 * Real.cos (holography.fresnel_ang 4 4 (0, 0)) = 1 * 1 ∨
      ((holography.fresnel_corners_ideal (holography.fresnel_ang 4 4 (0, 0)) 1 1 1).headD
            (0, 0)).1 * Real.sin (holography.fresnel_ang 4 4 (0, 0)) +
        ((holography.fresnel_corners_ideal (holography.fresnel_ang 4 4 (0, 0)) 1 1 1).headD
            (0, 0)).2 * Real.cos (holography.fresnel_ang 4 4 (0, 0)) = 1) ∧
    (((holography.fresnel_corners_ideal (holography.fresnel_ang 4 4 (0, 0)) 1 1 1).headD
            (0, 0)).1 * Real.cos (holography.fresnel_ang 4 4 (0, 0)) -
        ((holography.fresnel_corners_ideal (holography.fresnel_ang 4 4 (0, 0)) 1 1 1).headD
            (0, 0)).2 * Real.sin (holography.fresnel_ang 4 4 (0, 0)) = -1 ∨
      ((holography.fresnel_corners_ideal (holography.fresnel_ang 4 4 (0, 0)) 1 1 1).headD
            (0, 0)).1 * Real.cos (holography.fresnel_ang 4 4 (0, 0)) -
        ((holography.fresnel_corners_ideal (holography.fresnel_ang 4 4 (0, 0)) 1 1 1).headD
            (0, 0)).2 * Real.sin (holography.fresnel_ang 4 4 (0, 0)) = 1) :=
  claim_C6_amended 4 4 (0, 0) 1 1 1
    ((holography.fresnel_corners_ideal (holography.fresnel_ang 4 4 (0, 0)) 1 1 1).headD
      (0, 0))
    (by simp [holography.fresnel_corners_ideal])

/-- C6 counterexample to the claim's direction: for a 4×4 hologram with the
sideband at `(0, 0)`, `l = 10`, `fratio = 3/10`, `r = 3`, the first corner of
the quadrilateral (built along `fresnel_ang = π/4`) projects to `-3` along the
claim's centre-to-sideband direction (`ang_center_to_sb = π/4 - π`), which is
neither of the claimed radial offsets `fratio * l = 3` and `l = 10`: the strip
points the opposite way. -/
theorem claim_C6_counterexample :
    ((3 / 10 : ℝ) * 10 * Real.sin (holography.fresnel_ang 4 4 (0, 0)) +
        3 * Real.sin (utils.wrap (holography.fresnel_ang 4 4 (0, 0) - Real.pi / 2)),
      (3 / 10 : ℝ) * 10 * Real.cos (holography.fresnel_ang 4 4 (0, 0)) +
        3 * Real.cos (utils.wrap (holography.fresnel_ang 4 4 (0, 0) - Real.pi / 2))) ∈
      holography.fresnel_corners_ideal (holography.fresnel_ang 4 4 (0, 0)) 10 (3 / 10) 3 ∧
    ((3 / 10 : ℝ) * 10 * Real.sin (holography.fresnel_ang 4 4 (0, 0)) +
          3 * Real.sin (utils.wrap (holography.fresnel_ang 4 4 (0, 0) - Real.pi / 2))) *
        Real.sin (ang_center_to_sb 4 4 (0, 0)) +
      ((3 / 10 : ℝ) * 10 * Real.cos (holography.fresnel_ang 4 4 (0, 0)) +
          3 * Real.cos (utils.wrap (holography.fresnel_ang 4 4 (0, 0) - Real.pi / 2))) *
        Real.cos (ang_center_to_sb 4 4 (0, 0)) = -3 ∧
    ¬ ((-3 : ℝ) = 3 / 10 * 10 ∨ (-3 : ℝ) = 10) := by
  have hp : pydiv ((4 : ℕ) : ℤ) 2 = 2 := by decide
  have hA : holography.fresnel_ang 4 4 (0, 0) = Real.pi / 4 := by
    unfold holography.fresnel_ang
    simp only [hp]
    norm_num [arctan2, Real.arctan_one]
  have hB : ang_center_to_sb 4 4 (0, 0) = Real.pi / 4 - Real.pi := by
    unfold ang_center_to_sb
    simp only [hp]
    norm_num [arctan2, Real.arctan_one]
  refine ⟨by simp [holography.fresnel_corners_ideal], ?_, by norm_num⟩
  rw [hA, hB, sin_wrap, cos_wrap, Real.sin_sub_pi_div_two, Real.cos_sub_pi_div_two,
    Real.sin_sub, Real.cos_sub, Real.sin_pi, Real.cos_pi, Real.sin_pi_div_four,
    Real.cos_pi_div_four]
  have h2 : Real.sqrt 2 * Real.sqrt 2 = 2 := Real.mul_self_sqrt (by norm_num)
  linear_combination (-3 / 2 : ℝ) * h2

end Ercpy
